import Mathlib

/-!
Verification of the deploy-commander runner's manifest reconciliation engine.

The Go source is shallowly embedded: pure helpers become Lean functions on
`String` / `List`; the Docker engine is an explicit state (volumes, networks,
containers) threaded through a small result monad `M` that also records the
ordered trace of engine calls and agent calls; external collaborators
(container wait status, log demuxing, the agent HTTP client, `netip.ParseAddr`)
are modelled as a read-only `Oracle` of response functions.  Go maps are
modelled as association lists in iteration order; theorems quantify over the
order where it matters.  Go `uuid.UUID` values are modelled as strings.
-/

deriving instance DecidableEq for Except

namespace DeployCommander

/-! ## String helpers (models of the Go standard library calls used) -/

/-- Model of Go `unicode.IsSpace` restricted to the character ranges the
repository actually feeds it (ASCII plus NEL and NBSP, Go's own fast path). -/
def goIsSpace (c : Char) : Bool :=
  c == ' ' || c == '\t' || c == '\n' || c == '\x0b' || c == '\x0c' ||
  c == '\r' || c == '\u0085' || c == ' '

/-- Model of Go `strings.TrimSpace`: drop leading and trailing whitespace. -/
def goTrimSpace (s : String) : String :=
  String.mk (((s.toList.dropWhile goIsSpace).reverse.dropWhile goIsSpace).reverse)

/-- Model of Go `strings.ToLower` on the ASCII range (job ids and volume names
in this system are ASCII; non-ASCII characters are left unchanged), written as
the explicit case table. -/
def goToLowerChar (c : Char) : Char :=
  match c with
  | 'A' => 'a' | 'B' => 'b' | 'C' => 'c' | 'D' => 'd' | 'E' => 'e' | 'F' => 'f'
  | 'G' => 'g' | 'H' => 'h' | 'I' => 'i' | 'J' => 'j' | 'K' => 'k' | 'L' => 'l'
  | 'M' => 'm' | 'N' => 'n' | 'O' => 'o' | 'P' => 'p' | 'Q' => 'q' | 'R' => 'r'
  | 'S' => 's' | 'T' => 't' | 'U' => 'u' | 'V' => 'v' | 'W' => 'w' | 'X' => 'x'
  | 'Y' => 'y' | 'Z' => 'z'
  | _ => c

/-- Model of Go `strings.ToLower` (ASCII model, applied characterwise). -/
def goToLower (s : String) : String :=
  String.mk (s.toList.map goToLowerChar)

/-- Model of Go `strings.ReplaceAll(s, " ", "-")`: both pattern and replacement
are single characters, so the call is a characterwise map. -/
def goReplaceSpaceWithDash (s : String) : String :=
  String.mk (s.toList.map (fun c => if c == ' ' then '-' else c))

/-! ## Naming (src/unnamed/part_006) -/

/-- Source: `DockerServiceName`: `"{job}-{trim(serviceKey)}"`. -/
def DockerServiceName (jobID serviceKey : String) : String :=
  jobID ++ "-" ++ goTrimSpace serviceKey

/-- Source: `DockerNetworkName`: `"{job}-{name}"`. -/
def DockerNetworkName (jobID name : String) : String :=
  jobID ++ "-" ++ name

/-- Source: `DockerNetworkResourceName`: `"{job}-{name}-resource"`. -/
def DockerNetworkResourceName (jobID name : String) : String :=
  jobID ++ "-" ++ name ++ "-resource"

/-- Source: `DockerRunnerVolumeName`: `"{job}-runner"`. -/
def DockerRunnerVolumeName (jobID : String) : String :=
  jobID ++ "-runner"

/-- Source: the `safe` closure inside `DockerVolumeName`:
`ReplaceAll(ToLower(TrimSpace(s)), " ", "-")`. -/
def dockerVolumeSafe (s : String) : String :=
  goReplaceSpaceWithDash (goToLower (goTrimSpace s))

/-- Source: `DockerVolumeName`: `"dc-{safe(job)}-{safe(volume)}"`. -/
def DockerVolumeName (jobID volumeName : String) : String :=
  "dc-" ++ dockerVolumeSafe jobID ++ "-" ++ dockerVolumeSafe volumeName

/-! ## Data model (src/models) -/

/-- Source: `models.DockerPlatformConnection` — the parsed `{network}` payload. -/
structure DockerPlatformConnection where
  network : String
deriving DecidableEq, Repr

/-- Raw JSON connection data is only consumed through `json.Unmarshal` into a
`DockerPlatformConnection`; it is modelled by the outcome of that parse. -/
inductive ConnData where
  | parsed (pc : DockerPlatformConnection)
  | malformed
deriving DecidableEq, Repr

/-- Source: `models.ResourceConnection` (`{type, data}`). -/
structure ResourceConnection where
  type : String
  data : ConnData
deriving DecidableEq, Repr

/-- Source: `models.PublicConnection` (opaque passthrough for this spec). -/
structure PublicConnection where
  address : Option String
  port : Option Nat
deriving DecidableEq, Repr

/-- Source: `models.CreateResourceSpec`; `metadata` is opaque raw JSON, kept as
a string token. -/
structure CreateResourceSpec where
  resourceType : String
  name : String
  publicConnection : Option PublicConnection
  metadata : String
deriving DecidableEq, Repr

/-- Source: `models.CreateResource`; `platformConnection` is a marshalled
`DockerPlatformConnection` (or Go `nil`), modelled by the value itself. -/
structure CreateResource where
  resourceType : String
  name : String
  platformConnection : Option DockerPlatformConnection
  publicConnection : Option PublicConnection
  metadata : String
deriving DecidableEq, Repr

/-- Source: `models.VolumeMount`. -/
structure VolumeMount where
  name : Option String
  mountPath : String
deriving DecidableEq, Repr

/-- Source: `models.BindingSpec`. -/
structure BindingSpec where
  containerPort : Option Nat
  hostPort : Option Nat
  hostIP : Option String
  containerIP : Option String
deriving DecidableEq, Repr

/-- Source: `models.ScaleSpec` (presence only matters to the core). -/
structure ScaleSpec where
  mode : String
  min : Option Nat
  max : Option Nat
deriving DecidableEq, Repr

/-- Source: `models.MetadataService`.  `environment` is a Go map, modelled as
an association list in iteration order.  `networkGroups` is read by
`SetupService` (src/services/docker/setup.go line 82); its struct field
declaration is not among the source files, so it is modelled as the optional
list of group names that usage requires. -/
structure MetadataService where
  image : String
  aliases : Option (List String)
  role : Option String
  dependsOn : Option (List String)
  bindings : Option (List BindingSpec)
  connections : Option (List ResourceConnection)
  resources : Option (List CreateResourceSpec)
  environment : List (String × String)
  volumes : Option (List VolumeMount)
  scale : Option ScaleSpec
  networkGroups : Option (List String)
deriving DecidableEq, Repr

/-- Convenience: a `MetadataService` with every optional field absent. -/
def emptyService : MetadataService :=
  ⟨"", none, none, none, none, none, none, [], none, none, none⟩

/-- Source: `models.ResourceRef` (uuids modelled as strings). -/
structure ResourceRef where
  id : Option String
  service : Option String
  name : Option String
deriving DecidableEq, Repr

/-- Source: `models.CreateConnectionSpec` (src/models/connection.go). -/
structure CreateConnectionSpec where
  job : String
  resource : ResourceRef
  metadata : String
deriving DecidableEq, Repr

/-- Source: `models.RemoveConnectionSpec`. -/
structure RemoveConnectionSpec where
  id : Option String
  resource : Option ResourceRef
deriving DecidableEq, Repr

/-- Source: `models.ConnectionPlan`. -/
structure ConnectionPlan where
  create : Option (List CreateConnectionSpec)
  remove : Option (List RemoveConnectionSpec)
deriving DecidableEq, Repr

/-- Source: `models.Metadata` (src/unnamed/part_002, the variant with
`remove_volumes`); `services` is a Go map, modelled as an association list in
iteration order. -/
structure Metadata where
  services : Option (List (String × MetadataService))
  removeServices : Option (List String)
  volumes : Option (List String)
  removeVolumes : Option (List String)
  connections : Option ConnectionPlan
deriving DecidableEq, Repr

/-- Source: `models.Configuration` (uuids modelled as strings,
`platform_data` dropped as unused by the embedded components). -/
structure Configuration where
  job : String
  run : String
  runner : String
  platform : String
  action : String
  metadata : Option Metadata
deriving DecidableEq, Repr

/-- Source: `models.ServiceRoleRunner`. -/
def ServiceRoleRunner : String := "runner"

/-- Source: `IsRunnerRole` (src/unnamed/part_006).  The Go receiver takes a
pointer that is never nil at call sites; the nil branch is dropped. -/
def IsRunnerRole (service : MetadataService) : Bool :=
  match service.role with
  | none => false
  | some r => r == ServiceRoleRunner

/-- Source: `GetPlatformData` (src/unnamed/part_006): `nil` unless the
connection's type is `"Platform"`. -/
def GetPlatformData (connection : ResourceConnection) : Option ConnData :=
  if connection.type ≠ "Platform" then none else some connection.data

/-! ## Container engine model

The Docker Engine is modelled operationally: inspect answers from the state,
create adds, remove deletes, and `NotFound` is exactly absence from the state.
In this deterministic model a create never fails, so the source's race-recovery
branches (create error followed by re-inspect) are unreachable and the label
maps carry only the fields later reads consult. -/

/-- Engine-side labels of a container, restricted to the keys the source reads
back: the job label (used by list filters) and the
`deploy-commander.resources` label.  The latter is `none` when absent or empty,
`some none` when present but not valid JSON, and `some (some names)` when it
parses as a JSON array of strings. -/
structure ContainerLabels where
  job : String
  run : String
  service : String
  resources : Option (Option (List String))
deriving DecidableEq, Repr

/-- A container known to the engine.  Docker container ids are modelled by the
container name (the source only round-trips the id returned by create/inspect
into start/stop/remove/wait/logs calls). -/
structure ContainerRec where
  name : String
  labels : ContainerLabels
deriving DecidableEq, Repr

/-- A named volume known to the engine, with its job ownership label. -/
structure VolumeRec where
  name : String
  job : String
deriving DecidableEq, Repr

/-- A network known to the engine, with its job ownership label (networks of
other jobs carry a different `job` value). -/
structure NetworkRec where
  name : String
  job : String
deriving DecidableEq, Repr

/-- The engine state. -/
structure Eng where
  volumes : List VolumeRec
  networks : List NetworkRec
  containers : List ContainerRec
deriving DecidableEq, Repr

/-- Names of the networks currently present in the engine. -/
def Eng.netNames (e : Eng) : List String := e.networks.map NetworkRec.name

/-- Names of the volumes currently present in the engine. -/
def Eng.volNames (e : Eng) : List String := e.volumes.map VolumeRec.name

/-- One recorded container-engine call (in issue order). -/
inductive EngineCall where
  | volumeInspect (name : String)
  | volumeCreate (name : String) (job run : String)
  | volumeRemove (name : String)
  | volumeList (job : String)
  | networkInspect (name : String)
  | networkCreate (name : String) (job run : String)
  | networkRemove (id : String)
  | networkList (job : String)
  | containerInspect (name : String)
  | containerCreate (name : String) (endpoints : List String)
  | containerStart (id : String)
  | containerStop (id : String)
  | containerRemove (id : String)
  | containerList (job : String)
  | containerWait (id : String)
  | containerLogs (id : String)
deriving DecidableEq, Repr

/-- Engine mutations, as the claims use the word: create/remove/start/stop of
volumes, networks and containers (inspect and list are reads). -/
def EngineCall.isMutation : EngineCall → Bool
  | .volumeCreate _ _ _ => true
  | .volumeRemove _ => true
  | .networkCreate _ _ _ => true
  | .networkRemove _ => true
  | .containerCreate _ _ => true
  | .containerStart _ => true
  | .containerStop _ => true
  | .containerRemove _ => true
  | _ => false

/-- One recorded AgentClient call (in issue order). -/
inductive AgentCall where
  | createResource (r : CreateResource)
  | deleteResourceByName (name : String)
  | createConnection (resource job : String)
  | deleteConnection (resource conn : String)
deriving DecidableEq, Repr

/-- Ghost scheduling events recorded by the `ServiceSetup` pass loop: `invoke`
marks entry into `SetupService` for a service (with the `depends_on` list of
the scheduled entry) and `complete` marks its error-free return. -/
inductive SchedEv where
  | invoke (s : String) (deps : List String)
  | complete (s : String)
deriving DecidableEq, Repr

/-- The world threaded through the embedded code: engine state plus the
ordered traces of engine calls, agent calls, and ghost scheduling events. -/
structure W where
  eng : Eng
  trace : List EngineCall
  agent : List AgentCall
  sched : List SchedEv
deriving DecidableEq, Repr

/-- External behaviors that are outside the engine-state model: whether an
agent client is configured, each agent call's success, a runner container's
wait outcome, log streaming, and `netip.ParseAddr` validity. -/
structure Oracle where
  hasComm : Bool
  agentOk : AgentCall → Bool
  waitResult : String → Except String Int
  logsOk : String → Bool
  demuxError : String → Option String
  parseAddrOk : String → Bool

/-- Errors of the embedding: `msg` carries a Go error message; `outOfFuel` is
the artifact constructor marking that a source loop has not yet terminated
within the given pass budget (the source has no such error). -/
inductive Err where
  | msg (s : String)
  | outOfFuel
deriving DecidableEq, Repr

/-- The result monad: state plus short-circuiting errors. -/
def M (α : Type) : Type := W → Except Err α × W

instance : Monad M where
  pure a := fun w => (Except.ok a, w)
  bind x f := fun w =>
    match x w with
    | (Except.ok a, w') => f a w'
    | (Except.error e, w') => (Except.error e, w')

/-- Fail with a Go error message. -/
def M.fail (s : String) : M α := fun w => (Except.error (Err.msg s), w)

/-- Fuel exhaustion (models a source loop that has not terminated yet). -/
def M.noFuel : M α := fun w => (Except.error Err.outOfFuel, w)

@[simp] theorem M.run_pure (a : α) (w : W) :
    (pure a : M α) w = (Except.ok a, w) := rfl

@[simp] theorem M.run_bind (x : M α) (f : α → M β) (w : W) :
    (x >>= f) w =
      match x w with
      | (Except.ok a, w') => f a w'
      | (Except.error e, w') => (Except.error e, w') := rfl

@[simp] theorem M.run_fail (s : String) (w : W) :
    (M.fail s : M α) w = (Except.error (Err.msg s), w) := rfl

@[simp] theorem M.run_noFuel (w : W) :
    (M.noFuel : M α) w = (Except.error Err.outOfFuel, w) := rfl

/-! ### Engine primitives -/

/-- VolumeInspect: does the named volume exist? -/
def volumeInspectE (name : String) : M Bool := fun w =>
  (Except.ok (w.eng.volNames.contains name),
   { w with trace := w.trace ++ [EngineCall.volumeInspect name] })

/-- VolumeCreate with job/run labels. -/
def volumeCreateE (name job run : String) : M Unit := fun w =>
  (Except.ok (),
   { w with
       eng := { w.eng with volumes := w.eng.volumes ++ [⟨name, job⟩] },
       trace := w.trace ++ [EngineCall.volumeCreate name job run] })

/-- VolumeRemove; returns whether the volume was found (absence is Docker's
`NotFound`). -/
def volumeRemoveE (name : String) : M Bool := fun w =>
  (Except.ok (w.eng.volNames.contains name),
   { w with
       eng := { w.eng with
                  volumes := w.eng.volumes.eraseP (fun v => v.name == name) },
       trace := w.trace ++ [EngineCall.volumeRemove name] })

/-- VolumeList filtered by the job label. -/
def volumeListE (job : String) : M (List VolumeRec) := fun w =>
  (Except.ok (w.eng.volumes.filter (fun v => v.job == job)),
   { w with trace := w.trace ++ [EngineCall.volumeList job] })

/-- NetworkInspect: does the named network exist? -/
def networkInspectE (name : String) : M Bool := fun w =>
  (Except.ok (w.eng.netNames.contains name),
   { w with trace := w.trace ++ [EngineCall.networkInspect name] })

/-- NetworkCreate with job/run labels. -/
def networkCreateE (name job run : String) : M Unit := fun w =>
  (Except.ok (),
   { w with
       eng := { w.eng with networks := w.eng.networks ++ [⟨name, job⟩] },
       trace := w.trace ++ [EngineCall.networkCreate name job run] })

/-- NetworkRemove (by id; ids are modelled by names); returns found. -/
def networkRemoveE (id : String) : M Bool := fun w =>
  (Except.ok (w.eng.netNames.contains id),
   { w with
       eng := { w.eng with
                  networks := w.eng.networks.eraseP (fun n => n.name == id) },
       trace := w.trace ++ [EngineCall.networkRemove id] })

/-- NetworkList filtered by the job label. -/
def networkListE (job : String) : M (List NetworkRec) := fun w =>
  (Except.ok (w.eng.networks.filter (fun n => n.job == job)),
   { w with trace := w.trace ++ [EngineCall.networkList job] })

/-- ContainerInspect by name or id; `none` is Docker's `NotFound`. -/
def containerInspectE (name : String) : M (Option ContainerLabels) := fun w =>
  (Except.ok ((w.eng.containers.find? (fun c => c.name == name)).map
      ContainerRec.labels),
   { w with trace := w.trace ++ [EngineCall.containerInspect name] })

/-- ContainerCreate; returns the new container's id (modelled by its name). -/
def containerCreateE (name : String) (labels : ContainerLabels)
    (endpoints : List String) : M String := fun w =>
  (Except.ok name,
   { w with
       eng := { w.eng with containers := w.eng.containers ++ [⟨name, labels⟩] },
       trace := w.trace ++ [EngineCall.containerCreate name endpoints] })

/-- ContainerStart (state change is not observed by any later read). -/
def containerStartE (id : String) : M Unit := fun w =>
  (Except.ok (), { w with trace := w.trace ++ [EngineCall.containerStart id] })

/-- ContainerStop; the source always discards its result. -/
def containerStopE (id : String) : M Unit := fun w =>
  (Except.ok (), { w with trace := w.trace ++ [EngineCall.containerStop id] })

/-- ContainerRemove (force); returns found. -/
def containerRemoveE (id : String) : M Bool := fun w =>
  (Except.ok ((w.eng.containers.find? (fun c => c.name == id)).isSome),
   { w with
       eng := { w.eng with
                  containers := w.eng.containers.eraseP (fun c => c.name == id) },
       trace := w.trace ++ [EngineCall.containerRemove id] })

/-- ContainerList (all=true) filtered by the job label. -/
def containerListE (job : String) : M (List ContainerRec) := fun w =>
  (Except.ok (w.eng.containers.filter (fun c => c.labels.job == job)),
   { w with trace := w.trace ++ [EngineCall.containerList job] })

/-- ContainerWait, answered by the oracle. -/
def containerWaitE (o : Oracle) (id : String) : M (Except String Int) := fun w =>
  (Except.ok (o.waitResult id),
   { w with trace := w.trace ++ [EngineCall.containerWait id] })

/-- ContainerLogs: opening the stream succeeds per the oracle. -/
def containerLogsE (o : Oracle) (id : String) : M Bool := fun w =>
  (Except.ok (o.logsOk id),
   { w with trace := w.trace ++ [EngineCall.containerLogs id] })

/-- Perform one agent call and return its oracle-determined success. -/
def agentCallE (o : Oracle) (c : AgentCall) : M Bool := fun w =>
  (Except.ok (o.agentOk c), { w with agent := w.agent ++ [c] })

/-- Ghost event: `SetupService` invoked for a service with the given deps. -/
def ghostInvoke (s : String) (deps : List String) : M Unit := fun w =>
  (Except.ok (), { w with sched := w.sched ++ [SchedEv.invoke s deps] })

/-- Ghost event: `SetupService` returned without error for a service. -/
def ghostComplete (s : String) : M Unit := fun w =>
  (Except.ok (), { w with sched := w.sched ++ [SchedEv.complete s] })

/-- Lift a pure `Except` computation into `M`. -/
def M.ofExcept (x : Except Err α) : M α := fun w => (x, w)

@[simp] theorem M.run_ofExcept (x : Except Err α) (w : W) :
    (M.ofExcept x) w = (x, w) := rfl

/-! ## ManifestValidator: pure checks (src/unnamed/part_006) -/

/-- Model of Go `%q` on the plain service/volume names this system uses. -/
def goQuote (s : String) : String := "\"" ++ s ++ "\""

/-- The `depends_on` list of a service (`nil` reads as the empty list). -/
def depsOf (svc : MetadataService) : List String := svc.dependsOn.getD []

/-- Go map set-insert modelled on lists: add at the end if not present. -/
def setInsert (l : List String) (x : String) : List String :=
  if l.contains x then l else l ++ [x]

/-- Insertion step of the sort modelling Go `sort.Strings`. -/
def insertSorted (x : String) : List String → List String
  | [] => [x]
  | y :: ys => if x ≤ y then x :: y :: ys else y :: insertSorted x ys

/-- Model of Go `sort.Strings` (insertion sort; order only affects which error
message is produced first). -/
def sortStrings : List String → List String
  | [] => []
  | x :: xs => insertSorted x (sortStrings xs)

/-- Inner loop of `CheckDependsOnServicesExist`: check one service's deps. -/
def checkDepList (svcKey : String) (svcs : List (String × MetadataService)) :
    List String → Except Err Unit
  | [] => Except.ok ()
  | d :: rest =>
    if (svcs.lookup d).isSome then checkDepList svcKey svcs rest
    else Except.error (Err.msg ("service " ++ goQuote svcKey ++ " depends_on " ++
      goQuote d ++ ", but " ++ goQuote d ++ " does not exist"))

/-- Outer loop of `CheckDependsOnServicesExist` over sorted keys. -/
def checkDepsKeys (svcs : List (String × MetadataService)) :
    List String → Except Err Unit
  | [] => Except.ok ()
  | k :: rest =>
    match checkDepList k svcs (depsOf ((svcs.lookup k).getD emptyService)) with
    | Except.error e => Except.error e
    | Except.ok _ => checkDepsKeys svcs rest

/-- Source: `CheckDependsOnServicesExist` (src/unnamed/part_006). -/
def CheckDependsOnServicesExist (svcs : List (String × MetadataService)) :
    Except Err Unit :=
  checkDepsKeys svcs (sortStrings (svcs.map Prod.fst))

/-- Loop body of `DeclaredVolumeSet`. -/
def declaredVolumeLoop : List String → List String → Except Err (List String)
  | [], set => Except.ok set
  | v :: rest, set =>
    let name := goTrimSpace v
    if name = "" then
      Except.error (Err.msg "metadata.volumes contains an empty name")
    else if set.contains name then
      Except.error (Err.msg ("metadata.volumes contains duplicate volume " ++
        goQuote name))
    else declaredVolumeLoop rest (set ++ [name])

/-- Source: `DeclaredVolumeSet` (src/unnamed/part_006). -/
def DeclaredVolumeSet (vols : Option (List String)) : Except Err (List String) :=
  match vols with
  | none => Except.ok []
  | some vs => declaredVolumeLoop vs []

/-- Mount checks for one service (`CheckServiceVolumeMounts` inner loop). -/
def checkMountsOfService (svcKey : String) (declared : List String) :
    List VolumeMount → List String → List String → Except Err (List String)
  | [], _, stragglers => Except.ok stragglers
  | m :: rest, seen, stragglers =>
    let mountPath := goTrimSpace m.mountPath
    if mountPath = "" then
      Except.error (Err.msg ("service " ++ goQuote svcKey ++
        " has a volume with empty mount_path"))
    else if mountPath.toList.head? ≠ some '/' then
      Except.error (Err.msg ("service " ++ goQuote svcKey ++
        " volume mount_path " ++ goQuote mountPath ++ " must be absolute"))
    else if seen.contains mountPath then
      Except.error (Err.msg ("service " ++ goQuote svcKey ++
        " has duplicate volume mount_path " ++ goQuote mountPath))
    else
      match m.name with
      | none => checkMountsOfService svcKey declared rest
          (seen ++ [mountPath]) stragglers
      | some nm =>
        let name := goTrimSpace nm
        if name = "" then
          Except.error (Err.msg ("service " ++ goQuote svcKey ++
            " has a volume with empty name"))
        else if declared.contains name then
          checkMountsOfService svcKey declared rest (seen ++ [mountPath])
            stragglers
        else
          checkMountsOfService svcKey declared rest (seen ++ [mountPath])
            (setInsert stragglers name)

/-- Outer loop of `CheckServiceVolumeMounts` over the services. -/
def checkSvcMountsLoop (declared : List String) :
    List (String × MetadataService) → List String → Except Err (List String)
  | [], stragglers => Except.ok stragglers
  | (k, svc) :: rest, stragglers =>
    match svc.volumes with
    | none => checkSvcMountsLoop declared rest stragglers
    | some mounts =>
      match checkMountsOfService k declared mounts [] stragglers with
      | Except.error e => Except.error e
      | Except.ok st => checkSvcMountsLoop declared rest st

/-- Source: `CheckServiceVolumeMounts` (src/unnamed/part_006); returns the
straggler set (insertion order). -/
def CheckServiceVolumeMounts (svcs : List (String × MetadataService))
    (declared : List String) : Except Err (List String) :=
  checkSvcMountsLoop declared svcs []

/-! ## Cycle detection (src/unnamed/part_006) -/

/-- The walk of `reconstructCycle` along parent pointers; fuel bounds the walk
(the Go loop stops at the first repeated node, and each step adds a fresh node
to `seen`, so `parent.length + 1` steps suffice). -/
def cycleWalk (parent : List (String × String)) :
    Nat → List String → List String → String → List String
  | 0, _, path, _ => path
  | fuel + 1, seen, path, cur =>
    match parent.lookup cur with
    | none => path
    | some p =>
      if seen.contains p then path ++ [p]
      else cycleWalk parent fuel (seen ++ [p]) (path ++ [p]) p

/-- Source: `reconstructCycle` (src/unnamed/part_006). -/
def reconstructCycle (parent : List (String × String)) (start : String) :
    String :=
  let path := cycleWalk parent (parent.length + 1) [start] [start] start
  let pathR := path.reverse
  let closed :=
    match pathR with
    | [] => []
    | h :: t => if (h :: t).getLast? = some h then h :: t else (h :: t) ++ [h]
  String.intercalate " -> " (closed.map goQuote)

/-- Colors of the three-color DFS: 0 unvisited, 1 visiting, 2 visited. -/
structure DfsState where
  color : List (String × Nat)
  parent : List (String × String)
  finish : List String
deriving DecidableEq, Repr

/-- Current color of a node (absent means unvisited, like a Go map read). -/
def colorOf (st : DfsState) (n : String) : Nat := (st.color.lookup n).getD 0

/-- Set a node's color (cons-front; `lookup` finds the newest binding). -/
def setColor (st : DfsState) (n : String) (c : Nat) : DfsState :=
  { st with color := (n, c) :: st.color }

/-- One iteration of the `for _, dep := range svc.DependsOn` loop inside
`dfs`: skip unknown deps, record a parent pointer if unset, recurse through
`visitF` (the dfs at one level less fuel); an error short-circuits the rest of
the loop as the Go `return err` does. -/
def dfsDepStep (svcs : List (String × MetadataService))
    (visitF : DfsState → String → Except Err DfsState) (node : String)
    (acc : Except Err DfsState) (d : String) : Except Err DfsState :=
  match acc with
  | Except.error e => Except.error e
  | Except.ok st =>
    if (svcs.lookup d).isSome then
      let st1 :=
        if (st.parent.lookup d).isSome then st
        else { st with parent := (d, node) :: st.parent }
      visitF st1 d
    else Except.ok st

/-- Source: the `dfs` closure of `CheckCircularDependencies`.  `fuel` is an
artifact bounding nesting depth; `dfsVisit_spec` below shows the fuel used by
`CheckCircularDependencies` is never exhausted.  The ghost `finish` list
records the order in which nodes turn visited. -/
def dfsVisit (svcs : List (String × MetadataService)) :
    Nat → DfsState → String → Except Err DfsState
  | 0, _, _ => Except.error Err.outOfFuel
  | fuel + 1, st, node =>
    match colorOf st node with
    | 1 => Except.error (Err.msg ("circular dependency detected: " ++
        reconstructCycle st.parent node))
    | 2 => Except.ok st
    | _ =>
      let st1 := setColor st node 1
      match (depsOf ((svcs.lookup node).getD emptyService)).foldl
          (dfsDepStep svcs (dfsVisit svcs fuel) node) (Except.ok st1) with
      | Except.error e => Except.error e
      | Except.ok st2 =>
        Except.ok { setColor st2 node 2 with finish := st2.finish ++ [node] }

/-- The `for node := range services` loop of `CheckCircularDependencies`; the
key order models one Go map iteration order. -/
def dfsOuter (svcs : List (String × MetadataService)) :
    List String → DfsState → Except Err DfsState
  | [], st => Except.ok st
  | k :: rest, st =>
    if colorOf st k = 0 then
      match dfsVisit svcs (svcs.length + 1) st k with
      | Except.error e => Except.error e
      | Except.ok st' => dfsOuter svcs rest st'
    else dfsOuter svcs rest st

/-- Source: `CheckCircularDependencies` (src/unnamed/part_006). -/
def CheckCircularDependencies (svcs : List (String × MetadataService)) :
    Except Err Unit :=
  match dfsOuter svcs (svcs.map Prod.fst) ⟨[], [], []⟩ with
  | Except.error e => Except.error e
  | Except.ok _ => Except.ok ()

/-! ## CheckVolumes and CheckMetadata (src/unnamed/part_005) -/

/-- Source: `checkExistingDockerVolumes`: every straggler must already exist
in the engine (the inspect error is returned verbatim). -/
def checkExistingDockerVolumes (jobID : String) : List String → M Unit
  | [] => pure ()
  | n :: rest => do
    let found ← volumeInspectE (DockerVolumeName jobID n)
    if found then checkExistingDockerVolumes jobID rest
    else M.fail ("inspect volume " ++ goQuote (DockerVolumeName jobID n) ++
      ": not found")

/-- Source: `CheckVolumes` (src/unnamed/part_005). -/
def CheckVolumes (job : String) (svcs : List (String × MetadataService))
    (volumes : Option (List String)) : M Unit :=
  match DeclaredVolumeSet volumes with
  | Except.error e => M.ofExcept (Except.error e)
  | Except.ok declared =>
    match CheckServiceVolumeMounts svcs declared with
    | Except.error e => M.ofExcept (Except.error e)
    | Except.ok stragglers =>
      if stragglers.isEmpty then pure ()
      else checkExistingDockerVolumes job stragglers

/-- Source: `CheckMetadata` (src/unnamed/part_005): the static checks run only
when the manifest declares at least one service. -/
def CheckMetadata (job : String) (metadata : Option Metadata) : M Unit :=
  match metadata with
  | none => pure ()
  | some md =>
    match md.services with
    | none => pure ()
    | some svcs =>
      if svcs.isEmpty then pure ()
      else do
        M.ofExcept (CheckDependsOnServicesExist svcs)
        M.ofExcept (CheckCircularDependencies svcs)
        CheckVolumes job svcs md.volumes

/-! ## VolumeSetup (src/services/docker/setup.go lines 23-63) -/

/-- The per-volume body of `VolumeSetup`: inspect, create when missing.  A
create in the deterministic engine model always succeeds, so the source's
race-recovery re-inspect is unreachable. -/
def volumeSetupLoop (job run : String) : List String → M Unit
  | [] => pure ()
  | volName :: rest => do
    let name := DockerVolumeName job volName
    let found ← volumeInspectE name
    if found then volumeSetupLoop job run rest
    else do
      volumeCreateE name job run
      volumeSetupLoop job run rest

/-- Source: `VolumeSetup`. -/
def VolumeSetup (job run : String) (metadata : Option Metadata) : M Unit :=
  match metadata with
  | none => pure ()
  | some md =>
    match md.volumes with
    | none => pure ()
    | some vols => volumeSetupLoop job run vols

/-! ## SetupService (src/services/docker/setup.go lines 65-484) -/

/-- The shared inspect-then-create ensure pattern guarded by the
`createdNetworks` set (the group, resource and default network blocks of
`SetupService` all instantiate it); on either path the name is added to
`createdNetworks`. -/
def ensureNetworkCreated (netName job run : String) (created : List String) :
    M (List String) :=
  if created.contains netName then pure created
  else do
    let found ← networkInspectE netName
    if found then pure (created ++ [netName])
    else do
      networkCreateE netName job run
      pure (created ++ [netName])

/-- Step 1a of `SetupService`: the `service.NetworkGroups` loop. -/
def setupGroups (job run : String) :
    List String → List String → List String → M (List String × List String)
  | [], created, networks => pure (created, networks)
  | g :: rest, created, networks => do
    let netName := DockerNetworkName job g
    let created1 ← ensureNetworkCreated netName job run created
    setupGroups job run rest created1 (setInsert networks netName)

/-- Step 1b of `SetupService`: the `service.Connections` loop.  Platform
network names are used exactly as parsed (no `DockerNetworkName` wrapping) and
are only inspected, never created. -/
def setupConns : List ResourceConnection → List String → M (List String)
  | [], networks => pure networks
  | conn :: rest, networks =>
    match GetPlatformData conn with
    | none => setupConns rest networks
    | some ConnData.malformed => M.fail "invalid platform connection data"
    | some (ConnData.parsed pc) =>
      if pc.network = "" then M.fail "platform connection network is required"
      else do
        let found ← networkInspectE pc.network
        if found then setupConns rest (setInsert networks pc.network)
        else M.fail ("platform connection network " ++ goQuote pc.network ++
          " not found")

/-- The `CreateResource` record `SetupService` builds from one resource spec
(runner: `platform_connection = nil`; otherwise the marshalled
`{network: DockerNetworkResourceName job name}` payload). -/
def resourceRecordOf (job : String) (isRunner : Bool)
    (spec : CreateResourceSpec) : CreateResource :=
  if isRunner then
    ⟨spec.resourceType, spec.name, none, spec.publicConnection, spec.metadata⟩
  else
    ⟨spec.resourceType, spec.name,
      some ⟨DockerNetworkResourceName job spec.name⟩,
      spec.publicConnection, spec.metadata⟩

/-- Step 1c of `SetupService`: the `service.Resources` loop.  For a runner the
body only appends the record; otherwise it also ensures the per-resource
network, joins it, and collects the resource name. -/
def setupResources (job run : String) (isRunner : Bool) :
    List CreateResourceSpec → List String → List String → List CreateResource →
    List String →
    M (List String × List String × List CreateResource × List String)
  | [], created, networks, resources, resourceNames =>
    pure (created, networks, resources, resourceNames)
  | spec :: rest, created, networks, resources, resourceNames =>
    if isRunner then
      setupResources job run isRunner rest created networks
        (resources ++ [resourceRecordOf job true spec]) resourceNames
    else do
      let netName := DockerNetworkResourceName job spec.name
      let created1 ← ensureNetworkCreated netName job run created
      setupResources job run isRunner rest created1 (setInsert networks netName)
        (resources ++ [resourceRecordOf job false spec])
        (setInsert resourceNames spec.name)

/-- Step 1d of `SetupService`: fall back to the per-job default network when
the attachment set is still empty. -/
def setupDefaultNet (job run : String) (created networks : List String) :
    M (List String × List String) :=
  if networks.length < 1 then do
    let created1 ← ensureNetworkCreated job job run created
    pure (created1, setInsert networks job)
  else pure (created, networks)

/-- Step 3 of `SetupService`: `K=V` environment strings (map iteration order
is the association-list order). -/
def envList (svc : MetadataService) : List String :=
  svc.environment.map (fun kv => kv.1 ++ "=" ++ kv.2)

/-- A volume mount of the container spec. -/
structure MountRec where
  source : String
  target : String
deriving DecidableEq, Repr

/-- Step 4 of `SetupService`: named-volume mounts; an empty (all-whitespace)
`mount_path` is fatal; a `nil` name selects the runner scratch volume. -/
def buildMounts (job serviceName : String) : List VolumeMount → M (List MountRec)
  | [] => pure []
  | vm :: rest =>
    if goTrimSpace vm.mountPath = "" then
      M.fail ("service " ++ goQuote serviceName ++ " volume mount_path is empty")
    else do
      let source :=
        match vm.name with
        | none => DockerRunnerVolumeName job
        | some n => DockerVolumeName job n
      let mounts ← buildMounts job serviceName rest
      pure (⟨source, vm.mountPath⟩ :: mounts)

/-- A host-side port binding. -/
structure PortBindingRec where
  hostIP : String
  hostPort : Nat
deriving DecidableEq, Repr

/-- Step 5 inner body of `SetupService` for one protocol: expose the container
port and, when a host port is requested, validate `host_ip` (default
`0.0.0.0`, checked by the `netip.ParseAddr` oracle) and append a binding. -/
def addPortProto (o : Oracle) (serviceName : String) (b : BindingSpec)
    (cp : Nat) (t : String) (exposed : List (Nat × String))
    (portMap : List ((Nat × String) × PortBindingRec)) :
    M (List (Nat × String) × List ((Nat × String) × PortBindingRec)) :=
  let port := (cp % 65536, t)
  let exposed1 := if exposed.contains port then exposed else exposed ++ [port]
  match b.hostPort with
  | none => pure (exposed1, portMap)
  | some hp =>
    let hostIP := b.hostIP.getD "0.0.0.0"
    if o.parseAddrOk hostIP then
      pure (exposed1, portMap ++ [(port, ⟨hostIP, hp⟩)])
    else M.fail ("service " ++ goQuote serviceName ++ " has invalid host_ip " ++
      goQuote hostIP)

/-- Step 5 of `SetupService`: every binding with a container port is exposed
on both tcp and udp. -/
def buildPorts (o : Oracle) (serviceName : String) :
    List BindingSpec → List (Nat × String) →
    List ((Nat × String) × PortBindingRec) →
    M (List (Nat × String) × List ((Nat × String) × PortBindingRec))
  | [], exposed, portMap => pure (exposed, portMap)
  | b :: rest, exposed, portMap =>
    match b.containerPort with
    | none => buildPorts o serviceName rest exposed portMap
    | some cp => do
      let (e1, p1) ← addPortProto o serviceName b cp "tcp" exposed portMap
      let (e2, p2) ← addPortProto o serviceName b cp "udp" e1 p1
      buildPorts o serviceName rest e2 p2

/-- Union of the names in a container's `deploy-commander.resources` label
into an accumulator (malformed JSON and empty names are ignored silently). -/
def extractResourceNames (labels : ContainerLabels) (acc : List String) :
    List String :=
  match labels.resources with
  | some (some names) =>
    names.foldl (fun a n => if n ≠ "" then setInsert a n else a) acc
  | _ => acc

/-- Step 6 of `SetupService`: if a prior container exists, fold its resources
label into the republish set, stop it best-effort, force-remove it. -/
def removeExistingContainer (containerName : String)
    (resourceNames : List String) : M (List String) := do
  let inspect ← containerInspectE containerName
  match inspect with
  | none => pure resourceNames
  | some labels => do
    let resourceNames1 := extractResourceNames labels resourceNames
    containerStopE containerName
    let _found ← containerRemoveE containerName
    pure resourceNames1

/-- Step 7 of `SetupService`: container labels; the resources label is present
exactly when at least one resource name was collected. -/
def buildLabels (job run serviceName : String) (resourceNames : List String) :
    ContainerLabels :=
  ⟨job, run, serviceName,
    if resourceNames.length > 0 then some (some resourceNames) else none⟩

/-- Step 10 of `SetupService` (runner only): stream logs, wait for exit,
surface demux errors, remove the runner container, and fail on a non-zero
exit status. -/
def runnerPhase (o : Oracle) (containerName containerID : String) : M Unit := do
  let logsOpened ← containerLogsE o containerID
  if logsOpened then do
    let res ← containerWaitE o containerID
    match res with
    | Except.error e =>
      M.fail ("wait container " ++ goQuote containerName ++ ": " ++ e)
    | Except.ok statusCode =>
      match o.demuxError containerID with
      | some e =>
        M.fail ("stream logs for " ++ goQuote containerName ++ ": " ++ e)
      | none => do
        let _found ← containerRemoveE containerID
        if statusCode ≠ 0 then
          M.fail ("runner container " ++ goQuote containerName ++
            " exited with status " ++ toString statusCode)
        else pure ()
  else M.fail ("logs container " ++ goQuote containerName)

/-- Step 11 of `SetupService`: publish every built `CreateResource` record;
any failure is fatal. -/
def publishResources (o : Oracle) : List CreateResource → M Unit
  | [] => pure ()
  | r :: rest => do
    let ok ← agentCallE o (AgentCall.createResource r)
    if ok then publishResources o rest
    else M.fail ("Failed to send resource " ++ r.name)

/-- Source: `SetupService` (src/services/docker/setup.go).  The Go receiver
takes a service pointer that is never nil at its call site, so the nil guard
is dropped.  Returns the updated `createdNetworks` set. -/
def SetupService (o : Oracle) (job run : String) (created : List String)
    (serviceName : String) (service : MetadataService) : M (List String) := do
  let isRunner := IsRunnerRole service
  let (created1, networks1) ←
    setupGroups job run (service.networkGroups.getD []) created []
  let networks2 ← setupConns (service.connections.getD []) networks1
  let (created2, networks3, resources, resourceNames) ←
    setupResources job run isRunner (service.resources.getD []) created1
      networks2 [] []
  let (created3, networks4) ← setupDefaultNet job run created2 networks3
  let containerName := DockerServiceName job serviceName
  let _env := envList service
  let _mounts ← buildMounts job serviceName (service.volumes.getD [])
  let _ports ← buildPorts o serviceName (service.bindings.getD []) [] []
  let resourceNames2 ← removeExistingContainer containerName resourceNames
  let labels := buildLabels job run serviceName resourceNames2
  let containerID ← containerCreateE containerName labels networks4
  containerStartE containerID
  if isRunner then runnerPhase o containerName containerID else pure ()
  if o.hasComm then publishResources o resources else pure ()
  pure created3

/-! ## ServiceSetup (src/services/docker/setup.go lines 486-529) -/

/-- One pass of the `ServiceSetup` loop: run every service whose `depends_on`
is contained in `ranServices`, stash the rest in `notRun`.  The ghost
`invoke`/`complete` events bracket each `SetupService` call. -/
def runPass (o : Oracle) (job run : String) :
    List (String × MetadataService) → List String → List String →
    M (List String × List (String × MetadataService) × List String)
  | [], ran, created => pure (ran, [], created)
  | (name, service) :: rest, ran, created =>
    let cantRun := (depsOf service).any (fun d => !ran.contains d)
    if cantRun then do
      let (ran1, notRun, created1) ← runPass o job run rest ran created
      pure (ran1, (name, service) :: notRun, created1)
    else do
      ghostInvoke name (depsOf service)
      let created1 ← SetupService o job run created name service
      ghostComplete name
      runPass o job run rest (ran ++ [name]) created1

/-- The `for len(services) > 0` driver of `ServiceSetup`; `fuel` bounds the
number of passes (the source loop has no deadlock check and simply keeps
passing, so a pass that runs nothing repeats forever — `M.noFuel` marks such a
run as still unfinished at the given budget). -/
def serviceSetupLoop (o : Oracle) (job run : String) :
    Nat → List (String × MetadataService) → List String → List String → M Unit
  | 0, services, _, _ => if services.isEmpty then pure () else M.noFuel
  | fuel + 1, services, ran, created =>
    if services.isEmpty then pure ()
    else do
      let (ran1, notRun, created1) ← runPass o job run services ran created
      serviceSetupLoop o job run fuel notRun ran1 created1

/-- Source: `ServiceSetup` (src/services/docker/setup.go). -/
def ServiceSetup (o : Oracle) (fuel : Nat) (job run : String)
    (metadata : Metadata) : M Unit :=
  match metadata.services with
  | none => pure ()
  | some services => serviceSetupLoop o job run fuel services [] []

/-! ## SetupConnections (src/services/docker/setup.go lines 531-603) -/

/-- Source: the `resolveResourceID` closure inside `SetupConnections`. -/
def resolveResourceID (ref : ResourceRef) : Except String String :=
  match ref.id with
  | some id => Except.ok id
  | none =>
    if ref.service.isSome ∨ ref.name.isSome then
      Except.error
        "cannot resolve resource by service/name in runner; ResourceRef.id is required"
    else Except.error "resource ref is empty; ResourceRef.id is required"

/-- The `connectionPlan.Create` loop of `SetupConnections`. -/
def createConnsLoop (o : Oracle) : List CreateConnectionSpec → M Unit
  | [] => pure ()
  | spec :: rest =>
    match resolveResourceID spec.resource with
    | Except.error e => M.fail ("create connection: " ++ e)
    | Except.ok resourceID => do
      let ok ← agentCallE o (AgentCall.createConnection resourceID spec.job)
      if ok then createConnsLoop o rest
      else M.fail ("create connection (resource=" ++ resourceID ++ " job=" ++
        spec.job ++ ")")

/-- The `connectionPlan.Remove` loop of `SetupConnections`: an entry with an
id needs a resource ref too; an entry with only a resource is unsupported; an
entry with neither falls through silently. -/
def removeConnsLoop (o : Oracle) : List RemoveConnectionSpec → M Unit
  | [] => pure ()
  | spec :: rest =>
    match spec.id with
    | some connID =>
      match spec.resource with
      | none =>
        M.fail ("remove connection " ++ connID ++
          ": resource ref is required (DeleteConnection needs resourceID + connectionID)")
      | some ref =>
        match resolveResourceID ref with
        | Except.error e => M.fail ("remove connection " ++ connID ++ ": " ++ e)
        | Except.ok resourceID => do
          let ok ← agentCallE o (AgentCall.deleteConnection resourceID connID)
          if ok then removeConnsLoop o rest
          else M.fail ("delete connection (resource=" ++ resourceID ++ " id=" ++
            connID ++ ")")
    | none =>
      match spec.resource with
      | some _ =>
        M.fail "remove connections for resource: unsupported with current API (need list-connections or delete-by-resource endpoint)"
      | none => removeConnsLoop o rest

/-- Source: `SetupConnections` (src/services/docker/setup.go). -/
def SetupConnections (o : Oracle) (plan : Option ConnectionPlan) : M Unit :=
  match plan with
  | none => pure ()
  | some p =>
    if o.hasComm then do
      (match p.create with
       | none => pure ()
       | some cs => createConnsLoop o cs)
      (match p.remove with
       | none => pure ()
       | some rs => removeConnsLoop o rs)
    else pure ()

/-! ## RemoveServices / RemoveVolumes (src/services/docker/remove.go) -/

/-- Best-effort agent deletes; the source discards the returned error, so the
oracle's answer is never consulted. -/
def deleteResourcesLoop (o : Oracle) : List String → M Unit
  | [] => pure ()
  | n :: rest => do
    let _ok ← agentCallE o (AgentCall.deleteResourceByName n)
    deleteResourcesLoop o rest

/-- The container loop of `RemoveServices`. -/
def removeServicesLoop (job : String) : List String → List String → M (List String)
  | [], resourceNames => pure resourceNames
  | service :: rest, resourceNames => do
    let containerName := DockerServiceName job service
    let inspect ← containerInspectE containerName
    match inspect with
    | none => removeServicesLoop job rest resourceNames
    | some labels => do
      let resourceNames1 := extractResourceNames labels resourceNames
      containerStopE containerName
      let _found ← containerRemoveE containerName
      removeServicesLoop job rest resourceNames1

/-- Source: `RemoveServices`. -/
def RemoveServices (o : Oracle) (job : String)
    (removeServices : Option (List String)) : M Unit :=
  match removeServices with
  | none => pure ()
  | some services => do
    let resourceNames ← removeServicesLoop job services []
    if o.hasComm then deleteResourcesLoop o resourceNames else pure ()

/-- The volume loop of `RemoveVolumes` (not-found results are swallowed). -/
def removeVolumesLoop (job : String) : List String → M Unit
  | [] => pure ()
  | volume :: rest =>
    if volume = "" then removeVolumesLoop job rest
    else do
      let _found ← volumeRemoveE (DockerVolumeName job volume)
      removeVolumesLoop job rest

/-- Source: `RemoveVolumes`. -/
def RemoveVolumes (job : String) (removeVolumes : Option (List String)) :
    M Unit :=
  match removeVolumes with
  | none => pure ()
  | some volumes => removeVolumesLoop job volumes

/-! ## Teardown (src/services/docker/teardown.go) -/

/-- The container loop of `TearDownServices`: inspect (skip vanished), collect
the resources label, stop best-effort, force-remove (not-found tolerated). -/
def tearDownContainersLoop : List ContainerRec → List String → M (List String)
  | [], resourceNames => pure resourceNames
  | c :: rest, resourceNames => do
    let inspect ← containerInspectE c.name
    match inspect with
    | none => tearDownContainersLoop rest resourceNames
    | some labels => do
      let resourceNames1 := extractResourceNames labels resourceNames
      containerStopE c.name
      let _found ← containerRemoveE c.name
      tearDownContainersLoop rest resourceNames1

/-- Source: `TearDownServices`. -/
def TearDownServices (o : Oracle) (job : String) : M Unit := do
  let containers ← containerListE job
  let resourceNames ← tearDownContainersLoop containers []
  if o.hasComm then deleteResourcesLoop o resourceNames else pure ()

/-- The volume loop of `TearDownVolumes`. -/
def tearDownVolumesLoop : List VolumeRec → M Unit
  | [] => pure ()
  | v :: rest =>
    if v.name = "" then tearDownVolumesLoop rest
    else do
      let _found ← volumeRemoveE v.name
      tearDownVolumesLoop rest

/-- Source: `TearDownVolumes`. -/
def TearDownVolumes (job : String) : M Unit := do
  let vols ← volumeListE job
  tearDownVolumesLoop vols

/-- The network loop of `TearDownNetworks` (remove by id; ids are names in
this model). -/
def tearDownNetworksLoop : List NetworkRec → M Unit
  | [] => pure ()
  | n :: rest =>
    if n.name = "" then tearDownNetworksLoop rest
    else do
      let _found ← networkRemoveE n.name
      tearDownNetworksLoop rest

/-- Source: `TearDownNetworks`. -/
def TearDownNetworks (job : String) : M Unit := do
  let nets ← networkListE job
  tearDownNetworksLoop nets

/-- Source: `Teardown`. -/
def Teardown (o : Oracle) (job : String) : M Unit := do
  TearDownServices o job
  TearDownVolumes job
  TearDownNetworks job

/-! ## Run (src/services/docker/docker_platform.go) -/

/-- Source: `Run`: teardown action, else the setup pipeline.
`fuel` bounds the `ServiceSetup` pass loop as above. -/
def Run (o : Oracle) (fuel : Nat) (config : Configuration) : M Unit :=
  if config.action = "teardown" then Teardown o config.job
  else
    match config.metadata with
    | none => pure ()
    | some md => do
      CheckMetadata config.job (some md)
      VolumeSetup config.job config.run (some md)
      ServiceSetup o fuel config.job config.run md
      RemoveServices o config.job md.removeServices
      RemoveVolumes config.job md.removeVolumes
      SetupConnections o md.connections

/-! ## Shared fixtures and utilities for the theorems -/

/-- A trivial oracle: agent configured, every external call succeeds, runners
exit 0, logs demux cleanly, every host ip parses. -/
def oTriv : Oracle :=
  ⟨true, fun _ => true, fun _ => Except.ok 0, fun _ => true, fun _ => none,
   fun _ => true⟩

/-- The empty world: empty engine, empty traces. -/
def w0 : W := ⟨⟨[], [], []⟩, [], [], []⟩

/-- Does `l` start with `pat`? -/
def startsWithL [DecidableEq α] : List α → List α → Bool
  | _, [] => true
  | [], _ :: _ => false
  | x :: xs, y :: ys => if x = y then startsWithL xs ys else false

/-- Does `pat` occur contiguously inside `l`? -/
def hasInfixL [DecidableEq α] : List α → List α → Bool
  | l, pat =>
    match l with
    | [] => pat.isEmpty
    | _ :: rest => startsWithL l pat || hasInfixL rest pat

/-- Substring test used to state the spec's "error text contains" claims. -/
def stringContains (s pat : String) : Bool := hasInfixL s.toList pat.toList

/-- Decomposing a decomposition of `l ++ [e]` around a distinguished cell:
the cell is either the appended `e` or lies inside `l`. -/
theorem append_singleton_decomp {α : Type} {l : List α} {e : α} {t1 : List α}
    {x : α} {t2 : List α} (h : l ++ [e] = t1 ++ x :: t2) :
    (t1 = l ∧ x = e ∧ t2 = []) ∨ ∃ t3, t2 = t3 ++ [e] ∧ l = t1 ++ x :: t3 := by
  rcases List.eq_nil_or_concat t2 with h2 | ⟨t3, y, h2⟩
  · subst h2
    have h' := List.append_inj' h (by simp)
    exact Or.inl ⟨h'.1.symm, by simpa using h'.2.symm, rfl⟩
  · subst h2
    have h' : l ++ [e] = (t1 ++ x :: t3) ++ [y] := by
      simpa [List.concat_eq_append] using h
    have h'' := List.append_inj' h' (by simp)
    have hy : e = y := by simpa using h''.2
    exact Or.inr ⟨t3, by simp [List.concat_eq_append, hy], h''.1⟩

/-! ## Claim C6: DockerVolumeName -/

/-- Modelled from the claim's words, for comparison with the source function:
lowercase the trimmed input and replace every whitespace character by a dash. -/
def claimVolumeSafe (s : String) : String :=
  String.mk ((goTrimSpace s).toList.map
    (fun c => if goIsSpace c then '-' else goToLowerChar c))

/-- Modelled from the claim's words: `"dc-" ++ claimVolumeSafe job ++ "-" ++
claimVolumeSafe volume`. -/
def claimVolumeName (job name : String) : String :=
  "dc-" ++ claimVolumeSafe job ++ "-" ++ claimVolumeSafe name

/-- Amended reading: only the space character (U+0020) is replaced by a dash;
other whitespace survives (it can only appear in the interior, the ends are
trimmed). -/
def amendedVolumeSafe (s : String) : String :=
  String.mk ((goTrimSpace s).toList.map
    (fun c => if c == ' ' then '-' else goToLowerChar c))

/-- Lowercasing never produces a space from a non-space. -/
theorem goToLowerChar_eq_space_iff (c : Char) : goToLowerChar c = ' ' ↔ c = ' ' := by
  unfold goToLowerChar
  split <;> simp_all

/-- C6 counterexample: the claim says whitespace is replaced by `-`, but the
source replaces only spaces: on the volume name `"a\tb"` the code keeps the
tab while the claim's reading predicts a dash. -/
theorem C6_counterexample :
    DockerVolumeName "j" "a\tb" = "dc-j-a\tb" ∧
    claimVolumeName "j" "a\tb" = "dc-j-a-b" ∧
    DockerVolumeName "j" "a\tb" ≠ claimVolumeName "j" "a\tb" := by
  refine ⟨by decide, by decide, by decide⟩

/-- C6 (amended): `DockerVolumeName job name` is exactly `"dc-"`, the
lowercased trimmed job id, `"-"`, and the lowercased trimmed volume name, with
space characters (U+0020) replaced by `"-"`; and the function is
deterministic — repeated invocations yield identical strings. -/
theorem C6_volume_name_shape (job name : String) :
    DockerVolumeName job name =
      "dc-" ++ amendedVolumeSafe job ++ "-" ++ amendedVolumeSafe name ∧
    DockerVolumeName job name = DockerVolumeName job name := by
  refine ⟨?_, rfl⟩
  have hsafe : ∀ s, dockerVolumeSafe s = amendedVolumeSafe s := by
    intro s
    unfold dockerVolumeSafe amendedVolumeSafe goReplaceSpaceWithDash goToLower
    congr 1
    show List.map _ (List.map goToLowerChar (goTrimSpace s).toList) = _
    rw [List.map_map]
    congr 1
    funext c
    simp only [Function.comp]
    by_cases hc : goToLowerChar c = ' '
    · have : c = ' ' := (goToLowerChar_eq_space_iff c).mp hc
      subst this
      simp [hc]
    · have : ¬ c = ' ' := fun h => hc (by subst h; rfl)
      simp [hc, this]
  unfold DockerVolumeName
  rw [hsafe, hsafe]

/-! ## Claim C2: the scheduler has no deadlock check -/

/-- Fixture: service depending on `"b"`. -/
def svcCycA : MetadataService := { emptyService with dependsOn := some ["b"] }

/-- Fixture: service depending on `"a"`. -/
def svcCycB : MetadataService := { emptyService with dependsOn := some ["a"] }

/-- Fixture: the two-service cyclic manifest of spec scenario 3. -/
def mdCyclic : Metadata :=
  ⟨some [("a", svcCycA), ("b", svcCycB)], none, none, none, none⟩

/-- On the deadlocked set, one pass of the loop runs nothing and leaves every
argument unchanged. -/
theorem serviceSetupLoop_cyclic_stuck (o : Oracle) :
    ∀ fuel : Nat, ∀ w : W,
      serviceSetupLoop o "J" "R" fuel [("a", svcCycA), ("b", svcCycB)] [] [] w =
        (Except.error Err.outOfFuel, w) := by
  intro fuel
  induction fuel with
  | zero => intro w; rfl
  | succ n ih => intro w; exact ih w

/-- C2: on a deadlocked service set (every remaining service has an unmet
`depends_on` entry) `ServiceSetup` does not fail with a `DeadlockedGraph`
error: the pass loop never terminates.  For every pass budget the run is still
unfinished (`Err.outOfFuel` is the embedding's marker for an unfinished loop),
so no error value is ever returned by the source. -/
theorem C2_deadlocked_graph_never_fails :
    ∀ fuel : Nat,
      ServiceSetup oTriv fuel "J" "R" mdCyclic w0 =
        (Except.error Err.outOfFuel, w0) := by
  intro fuel
  exact serviceSetupLoop_cyclic_stuck oTriv fuel w0

/-! ## Claim C8: cycle report text -/

/-- C8 counterexample: the validated manifest is a Go map, and the DFS roots
iterate in map order; when the iteration starts at `"b"` the reported cycle is
`"b" -> "a" -> "b"`, which does not contain the claimed text
`"a" -> "b" -> "a"`. -/
theorem C8_counterexample :
    CheckCircularDependencies [("b", svcCycB), ("a", svcCycA)] =
      Except.error (Err.msg
        "circular dependency detected: \"b\" -> \"a\" -> \"b\"") ∧
    stringContains "circular dependency detected: \"b\" -> \"a\" -> \"b\""
        "\"a\" -> \"b\" -> \"a\"" = false := by
  refine ⟨by decide, by decide⟩

/-- C8 (amended): validation of the `a ↔ b` manifest always fails, and the
error text contains the cycle starting at whichever of the two services the
map iteration visits first: `"a" -> "b" -> "a"` when iteration starts at `a`,
and `"b" -> "a" -> "b"` when it starts at `b`. -/
theorem C8_cycle_text_by_iteration_order :
    (CheckCircularDependencies [("a", svcCycA), ("b", svcCycB)] =
      Except.error (Err.msg
        "circular dependency detected: \"a\" -> \"b\" -> \"a\"") ∧
     stringContains "circular dependency detected: \"a\" -> \"b\" -> \"a\""
        "\"a\" -> \"b\" -> \"a\"" = true) ∧
    (CheckCircularDependencies [("b", svcCycB), ("a", svcCycA)] =
      Except.error (Err.msg
        "circular dependency detected: \"b\" -> \"a\" -> \"b\"") ∧
     stringContains "circular dependency detected: \"b\" -> \"a\" -> \"b\""
        "\"b\" -> \"a\" -> \"b\"" = true) := by
  refine ⟨⟨by decide, by decide⟩, ⟨by decide, by decide⟩⟩

/-! ## Claim C10: empty remove entries are skipped -/

/-- The removes loop treats an entry with neither id nor resource as
invisible. -/
theorem removeConnsLoop_skip (o : Oracle) (l1 l2 : List RemoveConnectionSpec) :
    removeConnsLoop o
        (l1 ++ (⟨none, none⟩ : RemoveConnectionSpec) :: l2) =
      removeConnsLoop o (l1 ++ l2) := by
  induction l1 with
  | nil => rfl
  | cons s t ih =>
    simp only [List.cons_append, removeConnsLoop, List.append_eq, ih]

/-- C10: a connection-plan remove entry with neither an id nor a resource is
skipped silently — the whole `SetupConnections` run (result, agent calls,
everything) is identical to the run on the plan without that entry. -/
theorem C10_empty_remove_entry_skipped (o : Oracle)
    (create : Option (List CreateConnectionSpec))
    (l1 l2 : List RemoveConnectionSpec) :
    SetupConnections o
        (some ⟨create, some (l1 ++ (⟨none, none⟩ : RemoveConnectionSpec) :: l2)⟩) =
      SetupConnections o (some ⟨create, some (l1 ++ l2)⟩) := by
  simp only [SetupConnections]
  rw [removeConnsLoop_skip]

/-! ## Claim C9: teardown best-efforts agent deletes -/

/-- The resource names collected from a list of containers' resources labels
(in loop order). -/
def collectTeardownNames (cs : List ContainerRec) : List String :=
  cs.foldl (fun a c => extractResourceNames c.labels a) []

/-- With unique names, `find?` by a member's name returns that member. -/
theorem find?_name_eq_of_nodup :
    ∀ (l : List ContainerRec), (l.map ContainerRec.name).Nodup →
      ∀ c ∈ l, l.find? (fun x => x.name == c.name) = some c := by
  intro l
  induction l with
  | nil => intro _ c hc; cases hc
  | cons h t ih =>
    intro hnd c hc
    simp only [List.map_cons, List.nodup_cons] at hnd
    rcases List.mem_cons.mp hc with rfl | hct
    · rw [List.find?_cons_of_pos _ (by simp)]
    · have hne : h.name ≠ c.name := by
        intro he
        exact hnd.1 (he ▸ List.mem_map_of_mem ContainerRec.name hct)
      rw [List.find?_cons_of_neg _ (by simpa using hne)]
      exact ih hnd.2 c hct

/-- Erasing a container of a different name does not change a `find?` by
name. -/
theorem find?_eraseP_ne :
    ∀ (l : List ContainerRec) (cn dn : String), dn ≠ cn →
      (l.eraseP (fun x => x.name == cn)).find? (fun x => x.name == dn) =
        l.find? (fun x => x.name == dn) := by
  intro l cn dn hne
  induction l with
  | nil => rfl
  | cons h t ih =>
    by_cases hcn : h.name = cn
    · rw [List.eraseP_cons_of_pos (by simpa using hcn),
        List.find?_cons_of_neg _ (by simp [hcn]; exact Ne.symm hne)]
    · rw [List.eraseP_cons_of_neg (by simpa using hcn)]
      by_cases hdn : h.name = dn
      · rw [List.find?_cons_of_pos _ (by simpa using hdn),
          List.find?_cons_of_pos _ (by simpa using hdn)]
      · rw [List.find?_cons_of_neg _ (by simpa using hdn),
          List.find?_cons_of_neg _ (by simpa using hdn)]
        exact ih

/-- The delete loop always succeeds and appends exactly one
`deleteResourceByName` call per collected name, regardless of the agent's
answers (the source discards them). -/
theorem deleteResourcesLoop_spec (o : Oracle) :
    ∀ (ns : List String) (w : W),
      deleteResourcesLoop o ns w =
        (Except.ok (),
         { w with agent := w.agent ++ ns.map AgentCall.deleteResourceByName }) := by
  intro ns
  induction ns with
  | nil => intro w; simp [deleteResourcesLoop]
  | cons n t ih =>
    intro w
    simp [deleteResourcesLoop, agentCallE, ih, M.run_bind]

/-- The teardown container loop: with unique container names and every listed
container present, it succeeds, collects exactly the fold of the resources
labels, and issues no agent call. -/
theorem tearDownContainersLoop_spec :
    ∀ (cs : List ContainerRec) (acc : List String) (w : W),
      (∀ c ∈ cs, w.eng.containers.find? (fun x => x.name == c.name) = some c) →
      (cs.map ContainerRec.name).Nodup →
      ∃ w', tearDownContainersLoop cs acc w =
          (Except.ok (cs.foldl (fun a c => extractResourceNames c.labels a) acc),
           w') ∧
        w'.agent = w.agent ∧ w'.sched = w.sched := by
  intro cs
  induction cs with
  | nil =>
    intro acc w _ _
    exact ⟨w, rfl, rfl, rfl⟩
  | cons c rest ih =>
    intro acc w hfind hnd
    simp only [List.map_cons, List.nodup_cons] at hnd
    have hc : w.eng.containers.find? (fun x => x.name == c.name) = some c :=
      hfind c (List.mem_cons_self c rest)
    have hstep :
        tearDownContainersLoop (c :: rest) acc w =
          tearDownContainersLoop rest (extractResourceNames c.labels acc)
            { w with
                eng := { w.eng with
                  containers :=
                    w.eng.containers.eraseP (fun x => x.name == c.name) },
                trace := (w.trace ++ [EngineCall.containerInspect c.name]) ++
                  [EngineCall.containerStop c.name] ++
                  [EngineCall.containerRemove c.name] } := by
      simp [tearDownContainersLoop, containerInspectE, containerStopE,
        containerRemoveE, hc, M.run_bind]
    rw [hstep]
    simp only [List.foldl_cons]
    obtain ⟨w', hw', hag, hsc⟩ := ih (extractResourceNames c.labels acc)
      { w with
          eng := { w.eng with
            containers := w.eng.containers.eraseP (fun x => x.name == c.name) },
          trace := (w.trace ++ [EngineCall.containerInspect c.name]) ++
            [EngineCall.containerStop c.name] ++
            [EngineCall.containerRemove c.name] }
      (by
        intro d hd
        have hdn : d.name ≠ c.name := by
          intro he
          exact hnd.1 (he ▸ List.mem_map_of_mem ContainerRec.name hd)
        show (w.eng.containers.eraseP (fun x => x.name == c.name)).find?
            (fun x => x.name == d.name) = some d
        rw [find?_eraseP_ne _ _ _ hdn]
        exact hfind d (List.mem_cons_of_mem c hd))
      hnd.2
    exact ⟨w', hw', hag, hsc⟩

/-- C9: after the job's containers are removed, `TearDownServices` issues a
`deleteResourceByName` for every name collected from the containers'
resources labels (and nothing else), it succeeds, and the agent's answers to
those deletes cannot change the outcome — replacing the agent oracle leaves
the whole run unchanged. -/
theorem C9_teardown_deletes_are_best_effort (o : Oracle) (job : String) (w : W)
    (hcomm : o.hasComm = true) (hag : w.agent = [])
    (hnd : (w.eng.containers.map ContainerRec.name).Nodup) :
    (TearDownServices o job w).1 = Except.ok () ∧
    (TearDownServices o job w).2.agent =
      (collectTeardownNames
        (w.eng.containers.filter (fun c => c.labels.job == job))).map
        AgentCall.deleteResourceByName ∧
    (∀ f, TearDownServices { o with agentOk := f } job w =
      TearDownServices o job w) := by
  have hindep : ∀ f, TearDownServices { o with agentOk := f } job w =
      TearDownServices o job w := by
    intro f
    have hd : deleteResourcesLoop { o with agentOk := f } =
        deleteResourcesLoop o := by
      funext ns w'
      rw [deleteResourcesLoop_spec, deleteResourcesLoop_spec]
    simp only [TearDownServices, hd]
  have hsub : ((w.eng.containers.filter
      (fun c => c.labels.job == job)).map ContainerRec.name).Nodup :=
    List.Nodup.sublist (List.Sublist.map ContainerRec.name
      (List.filter_sublist w.eng.containers)) hnd
  obtain ⟨w', hw', hag', _⟩ := tearDownContainersLoop_spec
    (w.eng.containers.filter (fun c => c.labels.job == job)) []
    { w with trace := w.trace ++ [EngineCall.containerList job] }
    (by
      intro c hc
      exact find?_name_eq_of_nodup w.eng.containers hnd c
        (List.mem_of_mem_filter hc))
    hsub
  refine ⟨?_, ?_, hindep⟩
  · simp only [TearDownServices, M.run_bind, containerListE]
    rw [hw']
    simp [hcomm, deleteResourcesLoop_spec]
  · simp only [TearDownServices, M.run_bind, containerListE]
    rw [hw']
    simp only [hcomm, if_true, deleteResourcesLoop_spec, collectTeardownNames]
    simp only [hag'] at *
    simp [hag]

/-- Fixture: an engine holding one "J"-labeled container whose resources
label names `"main"` (the state scenario 5 of the spec leaves behind). -/
def wTd : W :=
  ⟨⟨[], [], [⟨"J-web", ⟨"J", "R", "web", some (some ["main"])⟩⟩]⟩, [], [], []⟩

/-- Witness for C9 at the concrete post-scenario-5 state: teardown succeeds
and the agent receives exactly the delete for `"main"`. -/
theorem C9_witness :
    (TearDownServices oTriv "J" wTd).1 = Except.ok () ∧
    (TearDownServices oTriv "J" wTd).2.agent =
      [AgentCall.deleteResourceByName "main"] := by
  have h := C9_teardown_deletes_are_best_effort oTriv "J" wTd rfl rfl (by decide)
  exact ⟨h.1, by rw [h.2.1]; decide⟩

/-! ## Frame lemmas for the SetupService phases

`PhaseOut S w w'` captures what one phase of `SetupService` may do to the
world: the ghost schedule is untouched, the engine trace only grows, existing
networks persist, and any network it creates (by state or by trace) has a name
in `S`. -/

structure PhaseOut (S : List String) (w w' : W) : Prop where
  sched : w'.sched = w.sched
  trace : ∃ δ, w'.trace = w.trace ++ δ
  addsIn : ∀ nm, nm ∈ w'.eng.netNames → nm ∈ w.eng.netNames ∨ nm ∈ S
  mono : ∀ nm, nm ∈ w.eng.netNames → nm ∈ w'.eng.netNames
  creates : ∀ m jb rn, EngineCall.networkCreate m jb rn ∈ w'.trace →
    EngineCall.networkCreate m jb rn ∈ w.trace ∨ m ∈ S

/-- `PhaseOut` is reflexive. -/
theorem PhaseOut.refl (S : List String) (w : W) : PhaseOut S w w :=
  ⟨rfl, ⟨[], by simp⟩, fun _ h => Or.inl h, fun _ h => h, fun _ _ _ h => Or.inl h⟩

/-- `PhaseOut` composes. -/
theorem PhaseOut.trans {S : List String} {w1 w2 w3 : W}
    (h12 : PhaseOut S w1 w2) (h23 : PhaseOut S w2 w3) : PhaseOut S w1 w3 := by
  refine ⟨h23.sched.trans h12.sched, ?_, ?_, ?_, ?_⟩
  · obtain ⟨d1, hd1⟩ := h12.trace
    obtain ⟨d2, hd2⟩ := h23.trace
    exact ⟨d1 ++ d2, by rw [hd2, hd1, List.append_assoc]⟩
  · intro nm hm
    rcases h23.addsIn nm hm with hm2 | hs
    · exact h12.addsIn nm hm2
    · exact Or.inr hs
  · intro nm hm
    exact h23.mono nm (h12.mono nm hm)
  · intro m jb rn hm
    rcases h23.creates m jb rn hm with hm2 | hs
    · exact h12.creates m jb rn hm2
    · exact Or.inr hs

/-- A computation's runs all satisfy `PhaseOut S` and keep the agent trace. -/
def Phase (S : List String) {α : Type} (f : M α) : Prop :=
  ∀ w r w', f w = (r, w') → PhaseOut S w w' ∧ w'.agent = w.agent

/-- A computation's runs all satisfy `PhaseOut S` (the agent may change). -/
def PhaseW (S : List String) {α : Type} (f : M α) : Prop :=
  ∀ w r w', f w = (r, w') → PhaseOut S w w'

theorem Phase.toW {S : List String} {α : Type} {f : M α} (h : Phase S f) :
    PhaseW S f :=
  fun w r w' hh => (h w r w' hh).1

theorem PhaseOut.widen {S S' : List String} (hsub : ∀ x ∈ S, x ∈ S')
    {w w' : W} (h : PhaseOut S w w') : PhaseOut S' w w' := by
  refine ⟨h.sched, h.trace, ?_, h.mono, ?_⟩
  · intro nm hm
    rcases h.addsIn nm hm with hm1 | hs
    · exact Or.inl hm1
    · exact Or.inr (hsub nm hs)
  · intro m jb rn hm
    rcases h.creates m jb rn hm with hm1 | hs
    · exact Or.inl hm1
    · exact Or.inr (hsub m hs)

theorem Phase.widenP {S S' : List String} {α : Type} {f : M α}
    (hsub : ∀ x ∈ S, x ∈ S') (h : Phase S f) : Phase S' f :=
  fun w r w' hh => ⟨((h w r w' hh).1).widen hsub, (h w r w' hh).2⟩

theorem PhaseW.widenW {S S' : List String} {α : Type} {f : M α}
    (hsub : ∀ x ∈ S, x ∈ S') (h : PhaseW S f) : PhaseW S' f :=
  fun w r w' hh => (h w r w' hh).widen hsub

theorem Phase.bindPhase {S : List String} {α β : Type} {x : M α} {f : α → M β}
    (hx : Phase S x) (hf : ∀ a, Phase S (f a)) : Phase S (x >>= f) := by
  intro w r w' h
  simp only [M.run_bind] at h
  cases hx1 : x w with
  | mk rx wx =>
    rw [hx1] at h
    cases rx with
    | error e =>
      cases h
      exact hx w _ _ hx1
    | ok a =>
      have h1 := hx w _ _ hx1
      have h2 := hf a wx r w' h
      exact ⟨h1.1.trans h2.1, h2.2.trans h1.2⟩

theorem PhaseW.bindPhaseW {S : List String} {α β : Type} {x : M α} {f : α → M β}
    (hx : PhaseW S x) (hf : ∀ a, PhaseW S (f a)) : PhaseW S (x >>= f) := by
  intro w r w' h
  simp only [M.run_bind] at h
  cases hx1 : x w with
  | mk rx wx =>
    rw [hx1] at h
    cases rx with
    | error e =>
      cases h
      exact hx w _ _ hx1
    | ok a =>
      exact (hx w _ _ hx1).trans (hf a wx r w' h)

/-- Outcome of any single-step world transform that appends one engine call
and leaves networks, agent and schedule alone. -/
theorem PhaseOut.of_trace_step {S : List String} {w : W} {c : EngineCall}
    (hnc : ∀ m jb rn, c ≠ EngineCall.networkCreate m jb rn) (e' : Eng)
    (hnet : e'.netNames = w.eng.netNames) :
    PhaseOut S w { w with eng := e', trace := w.trace ++ [c] } := by
  refine ⟨rfl, ⟨[c], rfl⟩, ?_, ?_, ?_⟩
  · intro nm hm
    exact Or.inl (by rw [← hnet]; exact hm)
  · intro nm hm
    rw [show ({ w with eng := e', trace := w.trace ++ [c] } : W).eng = e' from rfl,
      hnet]
    exact hm
  · intro m jb rn hm
    rcases List.mem_append.mp hm with hm1 | hm1
    · exact Or.inl hm1
    · exact absurd (List.mem_singleton.mp hm1).symm (hnc m jb rn)

theorem phase_pure (S : List String) {α : Type} (a : α) :
    Phase S (pure a : M α) := by
  intro w r w' h
  injection h with h1 h2
  subst h2
  exact ⟨PhaseOut.refl S w, rfl⟩

theorem phase_fail (S : List String) {α : Type} (s : String) :
    Phase S (M.fail s : M α) := by
  intro w r w' h
  injection h with h1 h2
  subst h2
  exact ⟨PhaseOut.refl S w, rfl⟩

theorem phase_networkInspectE (S : List String) (nm : String) :
    Phase S (networkInspectE nm) := by
  intro w r w' h
  injection h with h1 h2
  subst h2
  exact ⟨PhaseOut.of_trace_step (by intro _ _ _ h; cases h) w.eng rfl, rfl⟩

theorem phase_networkCreateE (S : List String) (nm jb rn : String)
    (hm : nm ∈ S) : Phase S (networkCreateE nm jb rn) := by
  intro w r w' h
  injection h with h1 h2
  subst h2
  refine ⟨⟨rfl, ⟨[EngineCall.networkCreate nm jb rn], rfl⟩, ?_, ?_, ?_⟩, rfl⟩
  · intro n hn
    simp only [Eng.netNames, List.map_append, List.map_cons, List.map_nil] at hn
    rcases List.mem_append.mp hn with hn1 | hn1
    · exact Or.inl hn1
    · exact Or.inr ((List.mem_singleton.mp hn1) ▸ hm)
  · intro n hn
    simp only [Eng.netNames, List.map_append, List.map_cons, List.map_nil]
    exact List.mem_append.mpr (Or.inl hn)
  · intro m jb1 rn1 hmem
    rcases List.mem_append.mp hmem with hm1 | hm1
    · exact Or.inl hm1
    · have := List.mem_singleton.mp hm1
      injection this with e1 e2 e3
      exact Or.inr (e1 ▸ hm)

theorem phase_containerInspectE (S : List String) (nm : String) :
    Phase S (containerInspectE nm) := by
  intro w r w' h
  injection h with h1 h2
  subst h2
  exact ⟨PhaseOut.of_trace_step (by intro _ _ _ h; cases h) w.eng rfl, rfl⟩

theorem phase_containerStopE (S : List String) (nm : String) :
    Phase S (containerStopE nm) := by
  intro w r w' h
  injection h with h1 h2
  subst h2
  exact ⟨PhaseOut.of_trace_step (by intro _ _ _ h; cases h) w.eng rfl, rfl⟩

theorem phase_containerStartE (S : List String) (nm : String) :
    Phase S (containerStartE nm) := by
  intro w r w' h
  injection h with h1 h2
  subst h2
  exact ⟨PhaseOut.of_trace_step (by intro _ _ _ h; cases h) w.eng rfl, rfl⟩

theorem phase_containerRemoveE (S : List String) (nm : String) :
    Phase S (containerRemoveE nm) := by
  intro w r w' h
  injection h with h1 h2
  subst h2
  exact ⟨PhaseOut.of_trace_step (by intro _ _ _ h; cases h)
    { w.eng with containers := w.eng.containers.eraseP (fun c => c.name == nm) }
    rfl, rfl⟩

theorem phase_containerCreateE (S : List String) (nm : String)
    (labels : ContainerLabels) (eps : List String) :
    Phase S (containerCreateE nm labels eps) := by
  intro w r w' h
  injection h with h1 h2
  subst h2
  exact ⟨PhaseOut.of_trace_step (by intro _ _ _ h; cases h)
    { w.eng with containers := w.eng.containers ++ [⟨nm, labels⟩] } rfl, rfl⟩

theorem phase_containerWaitE (S : List String) (o : Oracle) (nm : String) :
    Phase S (containerWaitE o nm) := by
  intro w r w' h
  injection h with h1 h2
  subst h2
  exact ⟨PhaseOut.of_trace_step (by intro _ _ _ h; cases h) w.eng rfl, rfl⟩

theorem phase_containerLogsE (S : List String) (o : Oracle) (nm : String) :
    Phase S (containerLogsE o nm) := by
  intro w r w' h
  injection h with h1 h2
  subst h2
  exact ⟨PhaseOut.of_trace_step (by intro _ _ _ h; cases h) w.eng rfl, rfl⟩

theorem phase_ensureNetworkCreated (S : List String) (nm jb rn : String)
    (created : List String) (hm : nm ∈ S) :
    Phase S (ensureNetworkCreated nm jb rn created) := by
  unfold ensureNetworkCreated
  by_cases hc : created.contains nm = true
  · rw [if_pos hc]
    exact phase_pure S created
  · rw [if_neg hc]
    refine Phase.bindPhase (phase_networkInspectE S nm) ?_
    intro found
    cases found
    · exact Phase.bindPhase (phase_networkCreateE S nm jb rn hm)
        (fun _ => phase_pure S _)
    · exact phase_pure S _

theorem phase_setupGroups (job run : String) (gs : List String) :
    ∀ created networks,
      Phase (gs.map (DockerNetworkName job))
        (setupGroups job run gs created networks) := by
  induction gs with
  | nil => intro created networks; exact phase_pure _ _
  | cons g rest ih =>
    intro created networks
    simp only [setupGroups]
    refine Phase.bindPhase (phase_ensureNetworkCreated _ _ _ _ _ (by simp)) ?_
    intro created1
    refine Phase.widenP ?_ (ih created1 _)
    intro x hx
    simp only [List.map_cons]
    exact List.mem_cons_of_mem _ hx

theorem phase_setupConns (l : List ResourceConnection) :
    ∀ networks, Phase ([] : List String) (setupConns l networks) := by
  induction l with
  | nil => intro networks; exact phase_pure _ _
  | cons conn rest ih =>
    intro networks
    simp only [setupConns]
    cases hgp : GetPlatformData conn with
    | none => exact ih networks
    | some d =>
      cases d with
      | malformed => exact phase_fail _ _
      | parsed pc =>
        dsimp only
        by_cases hn : pc.network = ""
        · rw [if_pos hn]
          exact phase_fail _ _
        · rw [if_neg hn]
          refine Phase.bindPhase (phase_networkInspectE _ _) ?_
          intro found
          cases found
          · exact phase_fail _ _
          · exact ih _

theorem phase_setupResources_runner (job run : String)
    (specs : List CreateResourceSpec) :
    ∀ created networks resources resourceNames,
      Phase ([] : List String)
        (setupResources job run true specs created networks resources
          resourceNames) := by
  induction specs with
  | nil => intro c n rs rn; exact phase_pure _ _
  | cons spec rest ih =>
    intro c n rs rn
    simp only [setupResources]
    exact ih c _ _ _

theorem phase_setupResources_service (job run : String)
    (specs : List CreateResourceSpec) :
    ∀ created networks resources resourceNames,
      Phase (specs.map (fun s => DockerNetworkResourceName job s.name))
        (setupResources job run false specs created networks resources
          resourceNames) := by
  induction specs with
  | nil => intro c n rs rn; exact phase_pure _ _
  | cons spec rest ih =>
    intro c n rs rn
    simp only [setupResources]
    refine Phase.bindPhase (phase_ensureNetworkCreated _ _ _ _ _ (by simp)) ?_
    intro c1
    refine Phase.widenP ?_ (ih c1 _ _ _)
    intro x hx
    simp only [List.map_cons]
    exact List.mem_cons_of_mem _ hx

theorem phase_setupDefaultNet (job run : String) (created networks : List String) :
    Phase [job] (setupDefaultNet job run created networks) := by
  unfold setupDefaultNet
  by_cases hl : networks.length < 1
  · rw [if_pos hl]
    refine Phase.bindPhase (phase_ensureNetworkCreated _ _ _ _ _ (by simp)) ?_
    intro c1
    exact phase_pure _ _
  · rw [if_neg hl]
    exact phase_pure _ _

theorem phase_buildMounts (job serviceName : String) (l : List VolumeMount) :
    Phase ([] : List String) (buildMounts job serviceName l) := by
  induction l with
  | nil => exact phase_pure _ _
  | cons vm rest ih =>
    simp only [buildMounts]
    by_cases hp : goTrimSpace vm.mountPath = ""
    · rw [if_pos hp]
      exact phase_fail _ _
    · rw [if_neg hp]
      exact Phase.bindPhase ih (fun _ => phase_pure _ _)

theorem phase_addPortProto (o : Oracle) (serviceName : String) (b : BindingSpec)
    (cp : Nat) (t : String) (exposed : List (Nat × String))
    (portMap : List ((Nat × String) × PortBindingRec)) :
    Phase ([] : List String) (addPortProto o serviceName b cp t exposed portMap) := by
  unfold addPortProto
  cases b.hostPort with
  | none => exact phase_pure _ _
  | some hp =>
    dsimp only
    by_cases hip : o.parseAddrOk (b.hostIP.getD "0.0.0.0") = true
    · rw [if_pos hip]
      exact phase_pure _ _
    · rw [if_neg hip]
      exact phase_fail _ _

theorem phase_buildPorts (o : Oracle) (serviceName : String)
    (l : List BindingSpec) :
    ∀ exposed portMap,
      Phase ([] : List String) (buildPorts o serviceName l exposed portMap) := by
  induction l with
  | nil => intro e p; exact phase_pure _ _
  | cons b rest ih =>
    intro e p
    simp only [buildPorts]
    cases b.containerPort with
    | none => exact ih e p
    | some cp =>
      refine Phase.bindPhase (phase_addPortProto o serviceName b cp "tcp" e p) ?_
      intro p1
      obtain ⟨e1, m1⟩ := p1
      refine Phase.bindPhase (phase_addPortProto o serviceName b cp "udp" e1 m1) ?_
      intro p2
      obtain ⟨e2, m2⟩ := p2
      exact ih e2 m2

theorem phase_removeExistingContainer (containerName : String)
    (resourceNames : List String) :
    Phase ([] : List String)
      (removeExistingContainer containerName resourceNames) := by
  unfold removeExistingContainer
  refine Phase.bindPhase (phase_containerInspectE _ _) ?_
  intro inspect
  cases inspect with
  | none => exact phase_pure _ _
  | some labels =>
    refine Phase.bindPhase (phase_containerStopE _ _) ?_
    intro _
    exact Phase.bindPhase (phase_containerRemoveE _ _) (fun _ => phase_pure _ _)

theorem phase_runnerPhase (o : Oracle) (containerName containerID : String) :
    Phase ([] : List String) (runnerPhase o containerName containerID) := by
  unfold runnerPhase
  refine Phase.bindPhase (phase_containerLogsE _ o _) ?_
  intro opened
  cases opened
  · exact phase_fail _ _
  · refine Phase.bindPhase (phase_containerWaitE _ o _) ?_
    intro res
    cases res with
    | error e => exact phase_fail _ _
    | ok status =>
      cases o.demuxError containerID with
      | some e => exact phase_fail _ _
      | none =>
        refine Phase.bindPhase (phase_containerRemoveE _ _) ?_
        intro _
        by_cases hs : status ≠ 0
        · rw [if_pos hs]
          exact phase_fail _ _
        · rw [if_neg hs]
          exact phase_pure _ _

/-- Full characterization of `publishResources`: engine, trace and schedule
are untouched; the agent trace grows by a prefix of the records (all of them
on success). -/
theorem publishResources_frame (o : Oracle) (rs : List CreateResource) :
    ∀ w r w', publishResources o rs w = (r, w') →
      w'.sched = w.sched ∧ w'.trace = w.trace ∧ w'.eng = w.eng ∧
      (∃ k, w'.agent = w.agent ++ ((rs.take k).map AgentCall.createResource)) ∧
      (r = Except.ok () → w'.agent = w.agent ++ rs.map AgentCall.createResource) := by
  induction rs with
  | nil =>
    intro w r w' h
    injection h with h1 h2
    subst h2
    exact ⟨rfl, rfl, rfl, ⟨0, by simp⟩, fun _ => by simp⟩
  | cons rr rest ih =>
    intro w r w' h
    simp only [publishResources, M.run_bind, agentCallE] at h
    by_cases hok : o.agentOk (AgentCall.createResource rr) = true
    · rw [if_pos hok] at h
      obtain ⟨hs, ht, he, ⟨k, hk⟩, hfull⟩ := ih _ r w' h
      refine ⟨hs, ht, he, ⟨k + 1, ?_⟩, ?_⟩
      · rw [hk]
        simp [List.take_succ_cons]
      · intro hr
        rw [hfull hr]
        simp
    · rw [if_neg hok] at h
      injection h with h1 h2
      subst h2
      refine ⟨rfl, rfl, rfl, ⟨1, by simp⟩, ?_⟩
      intro hr
      rw [← h1] at hr
      cases hr

/-- `publishResources` as a (weak) phase: it only touches the agent trace. -/
theorem phaseW_publishResources (S : List String) (o : Oracle)
    (rs : List CreateResource) : PhaseW S (publishResources o rs) := by
  intro w r w' h
  obtain ⟨hs, ht, he, _, _⟩ := publishResources_frame o rs w r w' h
  exact ⟨hs, ⟨[], by simp [ht]⟩, fun nm hm => Or.inl (by rw [← he]; exact hm),
    fun nm hm => by rw [he]; exact hm, fun m jb rn hm => Or.inl (by rwa [← ht])⟩

/-- The network names `SetupService` may create for a service: its group
networks, its per-resource networks (non-runner only), and the default
per-job network. -/
def creatableNetworkNames (job : String) (svc : MetadataService) : List String :=
  (svc.networkGroups.getD []).map (DockerNetworkName job) ++
    ((if IsRunnerRole svc then []
      else (svc.resources.getD []).map
        (fun s => DockerNetworkResourceName job s.name)) ++ [job])

/-- The whole of `SetupService` is a weak phase for `creatableNetworkNames`:
the ghost schedule is untouched, the trace only grows, existing networks
persist, and every network create targets a creatable name. -/
theorem phaseW_SetupService (o : Oracle) (job run : String)
    (created : List String) (name : String) (svc : MetadataService) :
    PhaseW (creatableNetworkNames job svc)
      (SetupService o job run created name svc) := by
  unfold SetupService creatableNetworkNames
  cases hr : IsRunnerRole svc with
  | false =>
    simp only [hr, if_false, Bool.false_eq_true]
    refine PhaseW.bindPhaseW (Phase.toW (Phase.widenP
      (fun x hx => List.mem_append.mpr (Or.inl hx))
      (phase_setupGroups job run _ created []))) ?_
    intro p1
    obtain ⟨c1, n1⟩ := p1
    refine PhaseW.bindPhaseW (Phase.toW (Phase.widenP (by intro x hx; cases hx)
      (phase_setupConns _ n1))) ?_
    intro n2
    refine PhaseW.bindPhaseW (Phase.toW (Phase.widenP
      (fun x hx => List.mem_append.mpr (Or.inr (List.mem_append.mpr (Or.inl hx))))
      (phase_setupResources_service job run _ c1 n2 [] []))) ?_
    intro p2
    obtain ⟨c2, n3, rs, rn⟩ := p2
    refine PhaseW.bindPhaseW (Phase.toW (Phase.widenP ?_
      (phase_setupDefaultNet job run c2 n3))) ?_
    · intro x hx
      simp only [List.mem_singleton] at hx
      exact List.mem_append.mpr (Or.inr (List.mem_append.mpr (Or.inr (by simp [hx]))))
    intro p3
    obtain ⟨c3, n4⟩ := p3
    refine PhaseW.bindPhaseW (Phase.toW (Phase.widenP (by intro x hx; cases hx)
      (phase_buildMounts job name _))) ?_
    intro _mounts
    refine PhaseW.bindPhaseW (Phase.toW (Phase.widenP (by intro x hx; cases hx)
      (phase_buildPorts o name _ [] []))) ?_
    intro _ports
    refine PhaseW.bindPhaseW (Phase.toW (Phase.widenP (by intro x hx; cases hx)
      (phase_removeExistingContainer _ rn))) ?_
    intro rn2
    refine PhaseW.bindPhaseW (Phase.toW (phase_containerCreateE _ _ _ _)) ?_
    intro cid
    refine PhaseW.bindPhaseW (Phase.toW (phase_containerStartE _ _)) ?_
    intro _
    refine PhaseW.bindPhaseW (Phase.toW (phase_pure _ _)) ?_
    intro _
    cases hcm : o.hasComm
    · rw [if_neg (by simp)]
      exact PhaseW.bindPhaseW (Phase.toW (phase_pure _ _))
        (fun _ => Phase.toW (phase_pure _ _))
    · rw [if_pos rfl]
      exact PhaseW.bindPhaseW (phaseW_publishResources _ o rs)
        (fun _ => Phase.toW (phase_pure _ _))
  | true =>
    simp only [hr, if_true]
    refine PhaseW.bindPhaseW (Phase.toW (Phase.widenP
      (fun x hx => List.mem_append.mpr (Or.inl hx))
      (phase_setupGroups job run _ created []))) ?_
    intro p1
    obtain ⟨c1, n1⟩ := p1
    refine PhaseW.bindPhaseW (Phase.toW (Phase.widenP (by intro x hx; cases hx)
      (phase_setupConns _ n1))) ?_
    intro n2
    refine PhaseW.bindPhaseW (Phase.toW (Phase.widenP (by intro x hx; cases hx)
      (phase_setupResources_runner job run _ c1 n2 [] []))) ?_
    intro p2
    obtain ⟨c2, n3, rs, rn⟩ := p2
    refine PhaseW.bindPhaseW (Phase.toW (Phase.widenP ?_
      (phase_setupDefaultNet job run c2 n3))) ?_
    · intro x hx
      simp only [List.mem_singleton] at hx
      exact List.mem_append.mpr (Or.inr (List.mem_append.mpr (Or.inr (by simp [hx]))))
    intro p3
    obtain ⟨c3, n4⟩ := p3
    refine PhaseW.bindPhaseW (Phase.toW (Phase.widenP (by intro x hx; cases hx)
      (phase_buildMounts job name _))) ?_
    intro _mounts
    refine PhaseW.bindPhaseW (Phase.toW (Phase.widenP (by intro x hx; cases hx)
      (phase_buildPorts o name _ [] []))) ?_
    intro _ports
    refine PhaseW.bindPhaseW (Phase.toW (Phase.widenP (by intro x hx; cases hx)
      (phase_removeExistingContainer _ rn))) ?_
    intro rn2
    refine PhaseW.bindPhaseW (Phase.toW (phase_containerCreateE _ _ _ _)) ?_
    intro cid
    refine PhaseW.bindPhaseW (Phase.toW (phase_containerStartE _ _)) ?_
    intro _
    refine PhaseW.bindPhaseW (Phase.toW (Phase.widenP (by intro x hx; cases hx)
      (phase_runnerPhase o _ _))) ?_
    intro _
    cases hcm : o.hasComm
    · rw [if_neg (by simp)]
      exact PhaseW.bindPhaseW (Phase.toW (phase_pure _ _))
        (fun _ => Phase.toW (phase_pure _ _))
    · rw [if_pos rfl]
      exact PhaseW.bindPhaseW (phaseW_publishResources _ o rs)
        (fun _ => Phase.toW (phase_pure _ _))

/-! ## Claim C1: dependency-ordered scheduling -/

/-- Every invoke event in the ghost schedule is preceded by a complete event
for each of its recorded dependencies. -/
def SchedGuarded (tr : List SchedEv) : Prop :=
  ∀ t1 a ds t2, tr = t1 ++ SchedEv.invoke a ds :: t2 →
    ∀ d ∈ ds, SchedEv.complete d ∈ t1

/-- Every invoke event records a manifest entry's name and deps. -/
def SchedConsistent (svcs : List (String × MetadataService))
    (tr : List SchedEv) : Prop :=
  ∀ a ds, SchedEv.invoke a ds ∈ tr → ∃ s, (a, s) ∈ svcs ∧ depsOf s = ds

theorem schedGuarded_nil : SchedGuarded [] := by
  intro t1 a ds t2 h
  exact absurd h (by simp)

theorem schedConsistent_nil (svcs : List (String × MetadataService)) :
    SchedConsistent svcs [] := by
  intro a ds h
  cases h

theorem schedGuarded_append_invoke {l : List SchedEv} {a : String}
    {ds : List String} (hg : SchedGuarded l)
    (hds : ∀ d ∈ ds, SchedEv.complete d ∈ l) :
    SchedGuarded (l ++ [SchedEv.invoke a ds]) := by
  intro t1 a' ds' t2 h d hd
  rcases append_singleton_decomp h with ⟨h1, h2, h3⟩ | ⟨t3, h2, h3⟩
  · injection h2 with e1 e2
    subst h1
    exact hds d (e2 ▸ hd)
  · exact hg t1 a' ds' t3 h3 d hd

theorem schedGuarded_append_complete {l : List SchedEv} {x : String}
    (hg : SchedGuarded l) :
    SchedGuarded (l ++ [SchedEv.complete x]) := by
  intro t1 a' ds' t2 h d hd
  rcases append_singleton_decomp h with ⟨h1, h2, h3⟩ | ⟨t3, h2, h3⟩
  · cases h2
  · exact hg t1 a' ds' t3 h3 d hd

theorem schedConsistent_append_invoke {svcs : List (String × MetadataService)}
    {l : List SchedEv} {a : String} {ds : List String} {s : MetadataService}
    (hc : SchedConsistent svcs l) (hs : (a, s) ∈ svcs) (hds : depsOf s = ds) :
    SchedConsistent svcs (l ++ [SchedEv.invoke a ds]) := by
  intro a' ds' hmem
  rcases List.mem_append.mp hmem with hm | hm
  · exact hc a' ds' hm
  · have he := List.mem_singleton.mp hm
    injection he with e1 e2
    exact ⟨s, e1 ▸ hs, hds.trans e2.symm⟩

theorem schedConsistent_append_complete {svcs : List (String × MetadataService)}
    {l : List SchedEv} {x : String} (hc : SchedConsistent svcs l) :
    SchedConsistent svcs (l ++ [SchedEv.complete x]) := by
  intro a' ds' hmem
  rcases List.mem_append.mp hmem with hm | hm
  · exact hc a' ds' hm
  · cases List.mem_singleton.mp hm

/-- With unique keys, a key determines the service it maps to. -/
theorem keyNodup_mem_unique :
    ∀ (l : List (String × MetadataService)),
      (l.map Prod.fst).Nodup → ∀ {k : String} {x y : MetadataService},
      (k, x) ∈ l → (k, y) ∈ l → x = y := by
  intro l
  induction l with
  | nil => intro _ k x y hx _; cases hx
  | cons p rest ih =>
    intro hnd k x y hx hy
    simp only [List.map_cons, List.nodup_cons] at hnd
    rcases List.mem_cons.mp hx with he | hx'
    · rcases List.mem_cons.mp hy with he2 | hy'
      · rw [← he] at he2
        injection he2 with _ e
        exact e.symm
      · exfalso
        apply hnd.1
        rw [← he]
        exact List.mem_map.mpr ⟨(k, y), hy', rfl⟩
    · rcases List.mem_cons.mp hy with he2 | hy'
      · exfalso
        apply hnd.1
        rw [← he2]
        exact List.mem_map.mpr ⟨(k, x), hx', rfl⟩
      · exact ih hnd.2 hx' hy'

/-- Invariant preservation over one scheduler pass. -/
theorem runPass_sched (o : Oracle) (job run : String)
    (svcs : List (String × MetadataService)) :
    ∀ (pending : List (String × MetadataService)) (ran created : List String)
      (w : W),
      (∀ p ∈ pending, p ∈ svcs) →
      SchedGuarded w.sched → SchedConsistent svcs w.sched →
      (∀ d ∈ ran, SchedEv.complete d ∈ w.sched) →
      ∀ r w', runPass o job run pending ran created w = (r, w') →
        SchedGuarded w'.sched ∧ SchedConsistent svcs w'.sched ∧
        ∀ ran1 notRun created1, r = Except.ok (ran1, notRun, created1) →
          (∀ d ∈ ran1, SchedEv.complete d ∈ w'.sched) ∧
          (∀ p ∈ notRun, p ∈ svcs) := by
  intro pending
  induction pending with
  | nil =>
    intro ran created w hp hg hc hr r w' h
    injection h with h1 h2
    subst h2
    refine ⟨hg, hc, ?_⟩
    intro ran1 notRun created1 hres
    rw [← h1] at hres
    injection hres with h3
    injection h3 with h4 h5
    injection h5 with h6 h7
    subst h4
    subst h6
    exact ⟨hr, fun p hp' => absurd hp' (by simp)⟩
  | cons p rest ih =>
    obtain ⟨nm, sv⟩ := p
    intro ran created w hp hg hc hr r w' h
    simp only [runPass] at h
    by_cases hcant : (depsOf sv).any (fun d => !ran.contains d) = true
    · rw [if_pos hcant] at h
      simp only [M.run_bind] at h
      cases hrec : runPass o job run rest ran created w with
      | mk rr wr =>
        rw [hrec] at h
        obtain ⟨hg', hc', himp⟩ := ih ran created w
          (fun q hq => hp q (List.mem_cons_of_mem _ hq)) hg hc hr rr wr hrec
        cases rr with
        | error e =>
          injection h with h1 h2
          subst h2
          refine ⟨hg', hc', ?_⟩
          intro ran1 notRun created1 hres
          rw [← h1] at hres
          cases hres
        | ok trip =>
          obtain ⟨ran1, notRun, created1⟩ := trip
          injection h with h1 h2
          subst h2
          obtain ⟨hr1, hnr⟩ := himp ran1 notRun created1 rfl
          refine ⟨hg', hc', ?_⟩
          intro ran1' notRun' created1' hres
          rw [← h1] at hres
          injection hres with h3
          injection h3 with h4 h5
          injection h5 with h6 h7
          subst h4
          subst h6
          refine ⟨hr1, ?_⟩
          intro q hq
          rcases List.mem_cons.mp hq with he | hq'
          · exact hp q (he ▸ List.mem_cons_self _ _)
          · exact hnr q hq'
    · rw [if_neg hcant] at h
      simp only [M.run_bind, ghostInvoke, ghostComplete] at h
      have hdone : ∀ d ∈ depsOf sv, SchedEv.complete d ∈ w.sched := by
        intro d hd
        apply hr
        have hmem : d ∈ ran := by
          by_contra hnot
          apply hcant
          rw [List.any_eq_true]
          refine ⟨d, hd, ?_⟩
          simp only [Bool.not_eq_true']
          rw [← Bool.not_eq_true]
          intro hcon
          exact hnot (by simpa using hcon)
        exact hmem
      cases hss : SetupService o job run created nm sv
          { w with sched := w.sched ++ [SchedEv.invoke nm (depsOf sv)] } with
      | mk rss wss =>
        rw [hss] at h
        have hg1 : SchedGuarded (w.sched ++ [SchedEv.invoke nm (depsOf sv)]) :=
          schedGuarded_append_invoke hg hdone
        have hc1 : SchedConsistent svcs
            (w.sched ++ [SchedEv.invoke nm (depsOf sv)]) :=
          schedConsistent_append_invoke hc (hp (nm, sv) (List.mem_cons_self _ _))
            rfl
        have hsched_ss : wss.sched = w.sched ++ [SchedEv.invoke nm (depsOf sv)] :=
          (phaseW_SetupService o job run created nm sv _ rss wss hss).sched
        cases rss with
        | error e =>
          injection h with h1 h2
          subst h2
          refine ⟨hsched_ss ▸ hg1, hsched_ss ▸ hc1, ?_⟩
          intro ran1 notRun created1 hres
          rw [← h1] at hres
          cases hres
        | ok created2 =>
          have hg2 : SchedGuarded (wss.sched ++ [SchedEv.complete nm]) :=
            schedGuarded_append_complete (hsched_ss ▸ hg1)
          have hc2 : SchedConsistent svcs (wss.sched ++ [SchedEv.complete nm]) :=
            schedConsistent_append_complete (hsched_ss ▸ hc1)
          have hran2 : ∀ d ∈ ran ++ [nm], SchedEv.complete d ∈
              wss.sched ++ [SchedEv.complete nm] := by
            intro d hd
            rcases List.mem_append.mp hd with hd1 | hd1
            · refine List.mem_append.mpr (Or.inl ?_)
              rw [hsched_ss]
              exact List.mem_append.mpr (Or.inl (hr d hd1))
            · rw [List.mem_singleton.mp hd1]
              exact List.mem_append.mpr (Or.inr (by simp))
          exact ih (ran ++ [nm]) created2
            { wss with sched := wss.sched ++ [SchedEv.complete nm] }
            (fun q hq => hp q (List.mem_cons_of_mem _ hq)) hg2 hc2 hran2 r w' h

/-- Invariant preservation over the whole pass loop. -/
theorem serviceSetupLoop_sched (o : Oracle) (job run : String)
    (svcs : List (String × MetadataService)) :
    ∀ (fuel : Nat) (pending : List (String × MetadataService))
      (ran created : List String) (w : W),
      (∀ p ∈ pending, p ∈ svcs) →
      SchedGuarded w.sched → SchedConsistent svcs w.sched →
      (∀ d ∈ ran, SchedEv.complete d ∈ w.sched) →
      ∀ r w', serviceSetupLoop o job run fuel pending ran created w = (r, w') →
        SchedGuarded w'.sched ∧ SchedConsistent svcs w'.sched := by
  intro fuel
  induction fuel with
  | zero =>
    intro pending ran created w hp hg hc hr r w' h
    unfold serviceSetupLoop at h
    by_cases he : pending.isEmpty = true <;>
      [rw [if_pos he] at h; rw [if_neg he] at h] <;>
    · injection h with h1 h2
      subst h2
      exact ⟨hg, hc⟩
  | succ n ih =>
    intro pending ran created w hp hg hc hr r w' h
    unfold serviceSetupLoop at h
    by_cases he : pending.isEmpty = true
    · rw [if_pos he] at h
      injection h with h1 h2
      subst h2
      exact ⟨hg, hc⟩
    · rw [if_neg he] at h
      simp only [M.run_bind] at h
      cases hrp : runPass o job run pending ran created w with
      | mk rr wr =>
        rw [hrp] at h
        obtain ⟨hg', hc', himp⟩ :=
          runPass_sched o job run svcs pending ran created w hp hg hc hr rr wr hrp
        cases rr with
        | error e =>
          injection h with h1 h2
          subst h2
          exact ⟨hg', hc'⟩
        | ok trip =>
          obtain ⟨ran1, notRun, created1⟩ := trip
          obtain ⟨hr1, hnr⟩ := himp ran1 notRun created1 rfl
          exact ih notRun ran1 created1 wr hnr hg' hc' hr1 r w' h

/-- C1: whenever the `ServiceSetup` scheduler invokes `SetupService` for a
service `a`, every service `b` listed in `a`'s `depends_on` has already
completed `SetupService` without error (in particular `a`'s container is not
created before all of `a`'s dependencies finished reconciliation). -/
theorem C1_dependency_completes_before_invoke
    (o : Oracle) (fuel : Nat) (job run : String) (md : Metadata)
    (svcs : List (String × MetadataService)) (a b : String)
    (svcA : MetadataService) (w : W)
    (hsv : md.services = some svcs) (hnd : (svcs.map Prod.fst).Nodup)
    (ha : (a, svcA) ∈ svcs) (hb : b ∈ depsOf svcA) (hsched : w.sched = []) :
    ∀ t1 ds t2, (ServiceSetup o fuel job run md w).2.sched =
        t1 ++ SchedEv.invoke a ds :: t2 →
      SchedEv.complete b ∈ t1 := by
  intro t1 ds t2 hdecomp
  have heq : serviceSetupLoop o job run fuel svcs [] [] w =
      ServiceSetup o fuel job run md w := by
    unfold ServiceSetup
    rw [hsv]
  obtain ⟨hg, hc⟩ := serviceSetupLoop_sched o job run svcs fuel svcs [] [] w
    (fun p hp => hp) (by rw [hsched]; exact schedGuarded_nil)
    (by rw [hsched]; exact schedConsistent_nil svcs) (by simp)
    (ServiceSetup o fuel job run md w).1 (ServiceSetup o fuel job run md w).2
    (by rw [heq])
  have hinv : SchedEv.invoke a ds ∈ (ServiceSetup o fuel job run md w).2.sched := by
    rw [hdecomp]
    exact List.mem_append.mpr (Or.inr (List.mem_cons_self _ _))
  obtain ⟨s, hsmem, hsdeps⟩ := hc a ds hinv
  have hsa : s = svcA := keyNodup_mem_unique svcs hnd hsmem ha
  have hds : b ∈ ds := by
    rw [← hsdeps, hsa]
    exact hb
  exact hg t1 a ds t2 hdecomp b hds

/-- Fixture: the linear-dependency manifest of spec scenario 2 (`app` depends
on `db`). -/
def svcLinApp : MetadataService :=
  { emptyService with image := "app", dependsOn := some ["db"] }

/-- Fixture: the `db` half of the linear manifest. -/
def svcLinDb : MetadataService := { emptyService with image := "db" }

/-- Fixture: the linear-dependency manifest (map iteration order `db`
first). -/
def mdLinear : Metadata :=
  ⟨some [("db", svcLinDb), ("app", svcLinApp)], none, none, none, none⟩

/-- World after the scheduler's ghost `invoke db` event. -/
def c1wA : W := ⟨⟨[], [], []⟩, [], [], [SchedEv.invoke "db" []]⟩

/-- Engine calls of reconciling `db` on the empty engine. -/
def c1tr1 : List EngineCall :=
  [EngineCall.networkInspect "J", EngineCall.networkCreate "J" "J" "R",
   EngineCall.containerInspect "J-db", EngineCall.containerCreate "J-db" ["J"],
   EngineCall.containerStart "J-db"]

/-- World after `SetupService` for `db`. -/
def c1wB : W :=
  ⟨⟨[], [⟨"J", "J"⟩], [⟨"J-db", ⟨"J", "R", "db", none⟩⟩]⟩, c1tr1, [],
   [SchedEv.invoke "db" []]⟩

/-- World before `SetupService` for `app` (complete/invoke ghosts added). -/
def c1wD : W :=
  ⟨⟨[], [⟨"J", "J"⟩], [⟨"J-db", ⟨"J", "R", "db", none⟩⟩]⟩, c1tr1, [],
   [SchedEv.invoke "db" [], SchedEv.complete "db", SchedEv.invoke "app" ["db"]]⟩

/-- Engine calls after also reconciling `app`. -/
def c1tr2 : List EngineCall :=
  c1tr1 ++ [EngineCall.containerInspect "J-app",
    EngineCall.containerCreate "J-app" ["J"], EngineCall.containerStart "J-app"]

/-- World after `SetupService` for `app`. -/
def c1wE : W :=
  ⟨⟨[], [⟨"J", "J"⟩], [⟨"J-db", ⟨"J", "R", "db", none⟩⟩,
      ⟨"J-app", ⟨"J", "R", "app", none⟩⟩]⟩, c1tr2, [],
   [SchedEv.invoke "db" [], SchedEv.complete "db", SchedEv.invoke "app" ["db"]]⟩

/-- Final world of the linear-manifest run. -/
def c1wF : W :=
  ⟨⟨[], [⟨"J", "J"⟩], [⟨"J-db", ⟨"J", "R", "db", none⟩⟩,
      ⟨"J-app", ⟨"J", "R", "app", none⟩⟩]⟩, c1tr2, [],
   [SchedEv.invoke "db" [], SchedEv.complete "db", SchedEv.invoke "app" ["db"],
    SchedEv.complete "app"]⟩

set_option maxHeartbeats 1600000 in
theorem c1step1 : SetupService oTriv "J" "R" [] "db" svcLinDb c1wA =
    (Except.ok ["J"], c1wB) := by decide

set_option maxHeartbeats 1600000 in
theorem c1step2 : SetupService oTriv "J" "R" ["J"] "app" svcLinApp c1wD =
    (Except.ok ["J"], c1wE) := by decide

/-- Unfolding equation for one runnable head of `runPass`. -/
theorem runPass_cons_run (o : Oracle) (job run : String) (nm : String)
    (sv : MetadataService) (rest : List (String × MetadataService))
    (ran created : List String) (w : W)
    (hcan : (depsOf sv).any (fun d => !ran.contains d) = false)
    (c1 : List String) (w1 : W)
    (hss : SetupService o job run created nm sv
      { w with sched := w.sched ++ [SchedEv.invoke nm (depsOf sv)] } =
      (Except.ok c1, w1)) :
    runPass o job run ((nm, sv) :: rest) ran created w =
      runPass o job run rest (ran ++ [nm]) c1
        { w1 with sched := w1.sched ++ [SchedEv.complete nm] } := by
  simp only [runPass, hcan, Bool.false_eq_true, if_false, M.run_bind,
    ghostInvoke, ghostComplete, hss]

theorem c1pass : runPass oTriv "J" "R" [("db", svcLinDb), ("app", svcLinApp)]
    [] [] w0 = (Except.ok (["db", "app"], [], ["J"]), c1wF) := by
  rw [runPass_cons_run oTriv "J" "R" "db" svcLinDb _ [] [] w0 (by decide) ["J"]
    c1wB c1step1]
  rw [List.nil_append]
  rw [runPass_cons_run oTriv "J" "R" "app" svcLinApp [] ["db"] ["J"]
    { c1wB with sched := c1wB.sched ++ [SchedEv.complete "db"] } (by decide)
    ["J"] c1wE c1step2]
  decide

theorem c1loop : serviceSetupLoop oTriv "J" "R" 1
    [("db", svcLinDb), ("app", svcLinApp)] [] [] w0 = (Except.ok (), c1wF) := by
  simp only [serviceSetupLoop]
  rw [if_neg (by decide)]
  simp only [M.run_bind, c1pass]
  decide

theorem c1sched : (ServiceSetup oTriv 1 "J" "R" mdLinear w0).2.sched =
    [SchedEv.invoke "db" [], SchedEv.complete "db", SchedEv.invoke "app" ["db"],
     SchedEv.complete "app"] := by
  have h : ServiceSetup oTriv 1 "J" "R" mdLinear w0 = (Except.ok (), c1wF) := by
    simp only [ServiceSetup, mdLinear]
    exact c1loop
  rw [h]
  decide

/-- Witness for C1 on the linear manifest: in the recorded schedule
`[invoke db, complete db, invoke app, complete app]`, the prefix before
`invoke app` contains `complete db`. -/
theorem C1_witness :
    SchedEv.complete "db" ∈
      ([SchedEv.invoke "db" [], SchedEv.complete "db"] : List SchedEv) :=
  C1_dependency_completes_before_invoke oTriv 1 "J" "R" mdLinear
    [("db", svcLinDb), ("app", svcLinApp)] "app" "db" svcLinApp w0 rfl
    (by decide) (by decide) (by decide) rfl
    [SchedEv.invoke "db" [], SchedEv.complete "db"] ["db"]
    [SchedEv.complete "app"] (by rw [c1sched]; rfl)

/-! ## Claims C4 and C5: SetupService phase behavior -/

/-- The inserted element is in the set-insert. -/
theorem mem_setInsert_self (l : List String) (x : String) : x ∈ setInsert l x := by
  unfold setInsert
  by_cases hc : l.contains x = true
  · rw [if_pos hc]
    exact List.mem_of_elem_eq_true hc
  · rw [if_neg hc]
    exact List.mem_append.mpr (Or.inr (by simp))

/-- Old members survive a set-insert. -/
theorem mem_setInsert_of_mem {l : List String} {y : String} (x : String)
    (h : y ∈ l) : y ∈ setInsert l x := by
  unfold setInsert
  by_cases hc : l.contains x = true
  · rw [if_pos hc]; exact h
  · rw [if_neg hc]; exact List.mem_append.mpr (Or.inl h)

/-- `ensureNetworkCreated` always succeeds in the deterministic engine. -/
theorem ensureNetworkCreated_ok (nm jb rn : String) (created : List String)
    (w : W) : ∃ c' w', ensureNetworkCreated nm jb rn created w =
      (Except.ok c', w') := by
  unfold ensureNetworkCreated
  by_cases hc : created.contains nm = true
  · rw [if_pos hc]
    exact ⟨created, w, rfl⟩
  · rw [if_neg hc]
    simp only [M.run_bind, networkInspectE]
    by_cases hf : w.eng.netNames.contains nm = true
    · rw [if_pos hf]
      exact ⟨created ++ [nm], _, rfl⟩
    · rw [if_neg hf]
      simp only [M.run_bind, networkCreateE]
      exact ⟨created ++ [nm], _, rfl⟩

/-- On success, `ensureNetworkCreated` leaves the target network present and
keeps the `createdNetworks` set sound. -/
theorem ensureNetworkCreated_spec (nm jb rn : String) (created : List String)
    (w : W) (c' : List String) (w' : W)
    (h : ensureNetworkCreated nm jb rn created w = (Except.ok c', w'))
    (hsound : ∀ n ∈ created, n ∈ w.eng.netNames) :
    nm ∈ w'.eng.netNames ∧ nm ∈ c' ∧ (∀ n ∈ created, n ∈ c') ∧
      (∀ n ∈ c', n ∈ w'.eng.netNames) := by
  have hphase := (phase_ensureNetworkCreated [nm] nm jb rn created (by simp)
    w _ w' h).1
  unfold ensureNetworkCreated at h
  by_cases hc : created.contains nm = true
  · rw [if_pos hc] at h
    injection h with h1 h2
    injection h1 with h1
    subst h1
    subst h2
    refine ⟨hphase.mono nm (hsound nm (List.mem_of_elem_eq_true hc)),
      List.mem_of_elem_eq_true hc, fun n hn => hn, ?_⟩
    intro n hn
    exact hphase.mono n (hsound n hn)
  · rw [if_neg hc] at h
    simp only [M.run_bind, networkInspectE] at h
    by_cases hf : w.eng.netNames.contains nm = true
    · rw [if_pos hf] at h
      injection h with h1 h2
      injection h1 with h1
      subst h1
      subst h2
      refine ⟨List.mem_of_elem_eq_true hf, by simp, ?_, ?_⟩
      · intro n hn
        exact List.mem_append.mpr (Or.inl hn)
      · intro n hn
        rcases List.mem_append.mp hn with hn1 | hn1
        · exact hsound n hn1
        · rw [List.mem_singleton.mp hn1]
          exact List.mem_of_elem_eq_true hf
    · rw [if_neg hf] at h
      simp only [M.run_bind, networkCreateE] at h
      injection h with h1 h2
      injection h1 with h1
      subst h1
      subst h2
      refine ⟨by simp [Eng.netNames], by simp, ?_, ?_⟩
      · intro n hn
        exact List.mem_append.mpr (Or.inl hn)
      · intro n hn
        simp only [Eng.netNames, List.map_append, List.map_cons, List.map_nil]
        rcases List.mem_append.mp hn with hn1 | hn1
        · exact List.mem_append.mpr (Or.inl (hsound n hn1))
        · exact List.mem_append.mpr (Or.inr (by simp [List.mem_singleton.mp hn1]))

/-- `setupGroups` always succeeds in the deterministic engine model. -/
theorem setupGroups_ok (job run : String) (gs : List String) :
    ∀ created networks w, ∃ c n w1,
      setupGroups job run gs created networks w = (Except.ok (c, n), w1) := by
  induction gs with
  | nil => intro created networks w; exact ⟨created, networks, w, rfl⟩
  | cons g rest ih =>
    intro created networks w
    simp only [setupGroups, M.run_bind]
    obtain ⟨c', w2, he⟩ :=
      ensureNetworkCreated_ok (DockerNetworkName job g) job run created w
    rw [he]
    exact ih c' (setInsert networks (DockerNetworkName job g)) w2

/-- `setupGroups` keeps the `createdNetworks` set sound: every name it
returns as created is present in the engine. -/
theorem setupGroups_sound (job run : String) :
    ∀ (gs created networks : List String) (w : W) (c1 n1 : List String)
      (w1 : W),
      setupGroups job run gs created networks w = (Except.ok (c1, n1), w1) →
      (∀ n ∈ created, n ∈ w.eng.netNames) →
      ∀ n ∈ c1, n ∈ w1.eng.netNames := by
  intro gs
  induction gs with
  | nil =>
    intro created networks w c1 n1 w1 h hsound
    injection h with h1 h2
    injection h1 with h1
    injection h1 with h3 h4
    subst h2
    subst h3
    exact hsound
  | cons g rest ih =>
    intro created networks w c1 n1 w1 h hsound
    simp only [setupGroups, M.run_bind] at h
    cases hen : ensureNetworkCreated (DockerNetworkName job g) job run created w
        with
    | mk re wm =>
      rw [hen] at h
      cases re with
      | error e => simp at h
      | ok cm =>
        obtain ⟨-, -, -, hcs⟩ :=
          ensureNetworkCreated_spec (DockerNetworkName job g) job run created w
            cm wm hen hsound
        exact ih cm _ wm c1 n1 w1 h hcs

/-- If some connection of the list is a parsed platform connection and
`setupConns` succeeds, the network name was inspected verbatim. -/
theorem setupConns_inspects (l : List ResourceConnection)
    (conn : ResourceConnection) (pc : DockerPlatformConnection)
    (hm : conn ∈ l) (hpd : GetPlatformData conn = some (ConnData.parsed pc)) :
    ∀ (networks : List String) (w : W) (ns : List String) (w' : W),
      setupConns l networks w = (Except.ok ns, w') →
      EngineCall.networkInspect pc.network ∈ w'.trace := by
  induction l with
  | nil => cases hm
  | cons c rest ih =>
    intro networks w ns w' h
    rcases List.mem_cons.mp hm with heq | hmem
    · subst heq
      simp only [setupConns, hpd] at h
      by_cases hn : pc.network = ""
      · rw [if_pos hn] at h
        simp [M.fail] at h
      · rw [if_neg hn] at h
        simp only [M.run_bind, networkInspectE] at h
        cases hct : w.eng.netNames.contains pc.network with
        | false =>
          rw [if_neg (by rw [hct]; exact Bool.false_ne_true)] at h
          simp [M.fail] at h
        | true =>
          rw [if_pos hct] at h
          obtain ⟨δ, hδ⟩ :=
            ((phase_setupConns rest (setInsert networks pc.network)
              _ _ w' h).1).trace
          rw [hδ]
          refine List.mem_append.mpr (Or.inl ?_)
          simp
    · simp only [setupConns] at h
      cases hgp : GetPlatformData c with
      | none =>
        rw [hgp] at h
        exact ih hmem networks w ns w' h
      | some d =>
        cases d with
        | malformed =>
          simp only [hgp] at h
          simp [M.fail] at h
        | parsed pc' =>
          simp only [hgp] at h
          by_cases hn : pc'.network = ""
          · rw [if_pos hn] at h
            simp [M.fail] at h
          · rw [if_neg hn] at h
            simp only [M.run_bind, networkInspectE] at h
            cases hct : w.eng.netNames.contains pc'.network with
            | false =>
              rw [if_neg (by rw [hct]; exact Bool.false_ne_true)] at h
              simp [M.fail] at h
            | true =>
              rw [if_pos hct] at h
              exact ih hmem _ _ ns w' h

/-- If some connection of the list is a parsed platform connection whose
network name is empty or absent from the engine, `setupConns` fails. -/
theorem setupConns_err_of_bad (l : List ResourceConnection)
    (conn : ResourceConnection) (pc : DockerPlatformConnection)
    (hm : conn ∈ l) (hpd : GetPlatformData conn = some (ConnData.parsed pc)) :
    ∀ (networks : List String) (w : W),
      (pc.network = "" ∨ pc.network ∉ w.eng.netNames) →
      ∃ e w2, setupConns l networks w = (Except.error e, w2) := by
  induction l with
  | nil => cases hm
  | cons c rest ih =>
    intro networks w hbad
    rcases List.mem_cons.mp hm with heq | hmem
    · subst heq
      simp only [setupConns, hpd]
      by_cases hn : pc.network = ""
      · rw [if_pos hn]
        exact ⟨_, w, rfl⟩
      · rw [if_neg hn]
        rcases hbad with hbad | hbad
        · exact absurd hbad hn
        simp only [M.run_bind, networkInspectE]
        cases hct : w.eng.netNames.contains pc.network with
        | false =>
          rw [if_neg Bool.false_ne_true]
          exact ⟨_, _, rfl⟩
        | true =>
          exact absurd (List.mem_of_elem_eq_true hct) hbad
    · simp only [setupConns]
      cases hgp : GetPlatformData c with
      | none => exact ih hmem networks w hbad
      | some d =>
        cases d with
        | malformed => exact ⟨_, w, rfl⟩
        | parsed pc' =>
          dsimp only
          by_cases hn : pc'.network = ""
          · rw [if_pos hn]
            exact ⟨_, w, rfl⟩
          · rw [if_neg hn]
            simp only [M.run_bind, networkInspectE]
            cases hct : w.eng.netNames.contains pc'.network with
            | false =>
              rw [if_neg Bool.false_ne_true]
              exact ⟨_, _, rfl⟩
            | true =>
              rw [if_pos rfl]
              refine ih hmem (setInsert networks pc'.network)
                { w with trace :=
                    w.trace ++ [EngineCall.networkInspect pc'.network] } ?_
              rcases hbad with hbad | hbad
              · exact Or.inl hbad
              · exact Or.inr hbad

/-- For a runner, the resources loop is pure: it only appends the
`CreateResource` records (each with `platform_connection = nil`). -/
theorem setupResources_runner_eq (job run : String) :
    ∀ (specs : List CreateResourceSpec) (created networks : List String)
      (resources : List CreateResource) (resourceNames : List String) (w : W),
      setupResources job run true specs created networks resources
        resourceNames w =
      (Except.ok (created, networks,
        resources ++ specs.map (resourceRecordOf job true), resourceNames), w) := by
  intro specs
  induction specs with
  | nil =>
    intro created networks resources resourceNames w
    simp [setupResources]
  | cons spec rest ih =>
    intro created networks resources resourceNames w
    simp only [setupResources, eq_self_iff_true, if_true]
    rw [ih created networks (resources ++ [resourceRecordOf job true spec])
      resourceNames w]
    simp

/-- For a non-runner, the resources loop appends one record per spec and
leaves every per-resource network present in the engine and in the
attachment set (given a sound incoming `createdNetworks`). -/
theorem setupResources_service_spec (job run : String) :
    ∀ (specs : List CreateResourceSpec) (created networks : List String)
      (resources : List CreateResource) (resourceNames : List String) (w : W)
      (c2 n3 : List String) (rs : List CreateResource) (rn : List String)
      (w3 : W),
      setupResources job run false specs created networks resources
        resourceNames w = (Except.ok (c2, n3, rs, rn), w3) →
      (∀ n ∈ created, n ∈ w.eng.netNames) →
      rs = resources ++ specs.map (resourceRecordOf job false) ∧
      (∀ x ∈ networks, x ∈ n3) ∧
      (∀ spec ∈ specs,
        DockerNetworkResourceName job spec.name ∈ w3.eng.netNames ∧
        DockerNetworkResourceName job spec.name ∈ n3) := by
  intro specs
  induction specs with
  | nil =>
    intro created networks resources resourceNames w c2 n3 rs rn w3 h hsound
    injection h with h1 h2
    injection h1 with h1
    injection h1 with h4 h5
    injection h5 with h5 h6
    injection h6 with h6 h7
    subst h2
    subst h5
    subst h6
    refine ⟨by simp, fun x hx => hx, ?_⟩
    intro spec hspec
    cases hspec
  | cons spec rest ih =>
    intro created networks resources resourceNames w c2 n3 rs rn w3 h hsound
    simp only [setupResources, Bool.false_eq_true, if_false, M.run_bind] at h
    cases hen : ensureNetworkCreated (DockerNetworkResourceName job spec.name)
        job run created w with
    | mk re wm =>
      rw [hen] at h
      cases re with
      | error e => simp at h
      | ok cm =>
        obtain ⟨hpresent, -, -, hcs⟩ :=
          ensureNetworkCreated_spec (DockerNetworkResourceName job spec.name)
            job run created w cm wm hen hsound
        obtain ⟨hrs, hnets, hall⟩ := ih cm
          (setInsert networks (DockerNetworkResourceName job spec.name))
          (resources ++ [resourceRecordOf job false spec])
          (setInsert resourceNames spec.name) wm c2 n3 rs rn w3 h hcs
        have hmono : ∀ nm, nm ∈ wm.eng.netNames → nm ∈ w3.eng.netNames :=
          ((phase_setupResources_service job run rest cm _ _ _ wm _ w3 h).1).mono
        refine ⟨by rw [hrs]; simp, ?_, ?_⟩
        · intro x hx
          exact hnets x (mem_setInsert_of_mem _ hx)
        · intro sp hsp
          rcases List.mem_cons.mp hsp with hsp1 | hsp1
          · subst hsp1
            exact ⟨hmono _ hpresent, hnets _ (mem_setInsert_self _ _)⟩
          · exact hall sp hsp1

/-- If the connections loop fails from every state reachable after the
group-network phase, the whole `SetupService` fails. -/
theorem SetupService_err_of_conns (o : Oracle) (job run : String)
    (created : List String) (name : String) (svc : MetadataService) (w : W)
    (hconns : ∀ (n1 : List String) (w1 : W),
      (∀ nm, nm ∈ w1.eng.netNames → nm ∈ w.eng.netNames ∨
        nm ∈ (svc.networkGroups.getD []).map (DockerNetworkName job)) →
      ∃ e w2, setupConns (svc.connections.getD []) n1 w1 =
        (Except.error e, w2)) :
    ∃ e w', SetupService o job run created name svc w =
      (Except.error e, w') := by
  obtain ⟨c1, n1, w1, hg⟩ :=
    setupGroups_ok job run (svc.networkGroups.getD []) created [] w
  have haddsIn :=
    ((phase_setupGroups job run (svc.networkGroups.getD []) created [] w
      _ w1 hg).1).addsIn
  obtain ⟨e, w2, hc⟩ := hconns n1 w1 haddsIn
  refine ⟨e, w2, ?_⟩
  simp only [SetupService, M.run_bind, hg, hc]

/-- The left-identity monad law for `M`, definitionally. -/
theorem M.pure_bind {α β : Type} (a : α) (f : α → M β) :
    ((pure a : M α) >>= f) = f a := rfl

/-- Inversion of a successful bind in `M`. -/
theorem bind_ok_inv {α β : Type} {x : M α} {f : α → M β} {w w' : W} {b : β}
    (h : (x >>= f) w = (Except.ok b, w')) :
    ∃ a wm, x w = (Except.ok a, wm) ∧ f a wm = (Except.ok b, w') := by
  rw [M.run_bind] at h
  cases hx : x w with
  | mk rx wx =>
    rw [hx] at h
    cases rx with
    | error e => simp at h
    | ok a => exact ⟨a, wx, rfl, h⟩

/-- Decomposition of a successful `SetupService` run: the four network phases
succeed in order, the later steps only extend the trace, the created container
is attached to the final endpoint set, and (with an agent configured) exactly
the built records are published. -/
theorem SetupService_ok_decomp (o : Oracle) (job run : String)
    (created : List String) (name : String) (svc : MetadataService)
    (w : W) (cfin : List String) (w' : W)
    (h : SetupService o job run created name svc w = (Except.ok cfin, w')) :
    ∃ c1 n1 w1 n2 w2 c2 n3 rs rn w3 c3 n4 w4,
      setupGroups job run (svc.networkGroups.getD []) created [] w =
        (Except.ok (c1, n1), w1) ∧
      setupConns (svc.connections.getD []) n1 w1 = (Except.ok n2, w2) ∧
      setupResources job run (IsRunnerRole svc) (svc.resources.getD []) c1 n2
        [] [] w2 = (Except.ok (c2, n3, rs, rn), w3) ∧
      setupDefaultNet job run c2 n3 w3 = (Except.ok (c3, n4), w4) ∧
      (∃ δ, w'.trace = w2.trace ++ δ) ∧
      (∀ nm, nm ∈ w3.eng.netNames → nm ∈ w'.eng.netNames) ∧
      EngineCall.containerCreate (DockerServiceName job name) n4 ∈ w'.trace ∧
      (o.hasComm = true →
        w'.agent = w.agent ++ rs.map AgentCall.createResource) := by
  cases hrr : IsRunnerRole svc with
  | false =>
    simp only [SetupService, hrr, Bool.false_eq_true, if_false,
      M.pure_bind] at h
    obtain ⟨p1, w1, hg, h⟩ := bind_ok_inv h
    obtain ⟨c1, n1⟩ := p1
    obtain ⟨n2, w2, hc, h⟩ := bind_ok_inv h
    obtain ⟨p2, w3, hres, h⟩ := bind_ok_inv h
    obtain ⟨c2, p3⟩ := p2
    obtain ⟨n3, p4⟩ := p3
    obtain ⟨rs, rn⟩ := p4
    obtain ⟨p5, w4, hdef, h⟩ := bind_ok_inv h
    obtain ⟨c3, n4⟩ := p5
    obtain ⟨_mounts, w5, hbm, h⟩ := bind_ok_inv h
    obtain ⟨_ports, w6, hbp, h⟩ := bind_ok_inv h
    obtain ⟨rn2, w7, hrc, h⟩ := bind_ok_inv h
    obtain ⟨cid, w8, hcc, h⟩ := bind_ok_inv h
    obtain ⟨_u1, w9, hcs, h⟩ := bind_ok_inv h
    have Pres : PhaseOut (creatableNetworkNames job svc) w2 w3 := by
      refine PhaseOut.widen ?_
        ((phase_setupResources_service job run (svc.resources.getD []) c1 n2
          [] [] w2 _ w3 hres).1)
      intro x hx
      simp only [creatableNetworkNames, hrr, Bool.false_eq_true, if_false]
      exact List.mem_append.mpr (Or.inr (List.mem_append.mpr (Or.inl hx)))
    have hjobS : ∀ x ∈ [job], x ∈ creatableNetworkNames job svc := by
      intro x hx
      rw [List.mem_singleton.mp hx]
      unfold creatableNetworkNames
      exact List.mem_append.mpr (Or.inr (List.mem_append.mpr (Or.inr (by simp))))
    have Pdef : PhaseOut (creatableNetworkNames job svc) w3 w4 :=
      PhaseOut.widen hjobS
        ((phase_setupDefaultNet job run c2 n3 w3 _ w4 hdef).1)
    have Pbm : PhaseOut (creatableNetworkNames job svc) w4 w5 :=
      PhaseOut.widen (by intro x hx; cases hx)
        ((phase_buildMounts job name (svc.volumes.getD []) w4 _ w5 hbm).1)
    have Pbp : PhaseOut (creatableNetworkNames job svc) w5 w6 :=
      PhaseOut.widen (by intro x hx; cases hx)
        ((phase_buildPorts o name (svc.bindings.getD []) [] [] w5 _ w6 hbp).1)
    have Prc : PhaseOut (creatableNetworkNames job svc) w6 w7 :=
      PhaseOut.widen (by intro x hx; cases hx)
        ((phase_removeExistingContainer (DockerServiceName job name) rn w6 _ w7
          hrc).1)
    have Pcc : PhaseOut (creatableNetworkNames job svc) w7 w8 :=
      (phase_containerCreateE (creatableNetworkNames job svc)
        (DockerServiceName job name) (buildLabels job run name rn2) n4 w7 _ w8
        hcc).1
    have Pcs : PhaseOut (creatableNetworkNames job svc) w8 w9 :=
      (phase_containerStartE (creatableNetworkNames job svc) cid w8 _ w9 hcs).1
    have hccmem : EngineCall.containerCreate (DockerServiceName job name) n4 ∈
        w8.trace := by
      simp only [containerCreateE] at hcc
      injection hcc with e1 e2
      rw [← e2]
      simp
    have hag1 : w1.agent = w.agent :=
      (phase_setupGroups job run (svc.networkGroups.getD []) created [] w
        _ w1 hg).2
    have hag2 : w2.agent = w1.agent :=
      (phase_setupConns (svc.connections.getD []) n1 w1 _ w2 hc).2
    have hag3 : w3.agent = w2.agent :=
      (phase_setupResources_service job run (svc.resources.getD []) c1 n2
        [] [] w2 _ w3 hres).2
    have hag4 : w4.agent = w3.agent :=
      (phase_setupDefaultNet job run c2 n3 w3 _ w4 hdef).2
    have hag5 : w5.agent = w4.agent :=
      (phase_buildMounts job name (svc.volumes.getD []) w4 _ w5 hbm).2
    have hag6 : w6.agent = w5.agent :=
      (phase_buildPorts o name (svc.bindings.getD []) [] [] w5 _ w6 hbp).2
    have hag7 : w7.agent = w6.agent :=
      (phase_removeExistingContainer (DockerServiceName job name) rn w6 _ w7
        hrc).2
    have hag8 : w8.agent = w7.agent :=
      (phase_containerCreateE ([] : List String) (DockerServiceName job name)
        (buildLabels job run name rn2) n4 w7 _ w8 hcc).2
    have hag9 : w9.agent = w8.agent :=
      (phase_containerStartE ([] : List String) cid w8 _ w9 hcs).2
    have hag9w : w9.agent = w.agent := by
      rw [hag9, hag8, hag7, hag6, hag5, hag4, hag3, hag2, hag1]
    cases hcm : o.hasComm with
    | false =>
      rw [hcm] at h
      rw [if_neg Bool.false_ne_true] at h
      have hfin : cfin = c3 ∧ w' = w9 := by
        injection h with e1 e2
        injection e1 with e1
        exact ⟨e1.symm, e2.symm⟩
      obtain ⟨hcf, hwf⟩ := hfin
      subst hwf
      refine ⟨c1, n1, w1, n2, w2, c2, n3, rs, rn, w3, c3, n4, w4,
        hg, hc, hres, hdef, ?_, ?_, ?_, ?_⟩
      · exact (Pres.trans (Pdef.trans (Pbm.trans (Pbp.trans (Prc.trans
          (Pcc.trans Pcs)))))).trace
      · exact (Pdef.trans (Pbm.trans (Pbp.trans (Prc.trans
          (Pcc.trans Pcs))))).mono
      · obtain ⟨δ, hδ⟩ := Pcs.trace
        rw [hδ]
        exact List.mem_append.mpr (Or.inl hccmem)
      · intro hcomm
        exact absurd hcomm (by simp)
    | true =>
      rw [hcm] at h
      rw [if_pos rfl] at h
      obtain ⟨_u3, w10, hpub, h⟩ := bind_ok_inv h
      have hfin : cfin = c3 ∧ w' = w10 := by
        injection h with e1 e2
        injection e1 with e1
        exact ⟨e1.symm, e2.symm⟩
      obtain ⟨hcf, hwf⟩ := hfin
      subst hwf
      obtain ⟨hpsched, hptrace, hpeng, -, hpfull⟩ :=
        publishResources_frame o rs w9 _ w' hpub
      have Ppub : PhaseOut (creatableNetworkNames job svc) w9 w' :=
        phaseW_publishResources (creatableNetworkNames job svc) o rs w9 _ w'
          hpub
      refine ⟨c1, n1, w1, n2, w2, c2, n3, rs, rn, w3, c3, n4, w4,
        hg, hc, hres, hdef, ?_, ?_, ?_, ?_⟩
      · exact (Pres.trans (Pdef.trans (Pbm.trans (Pbp.trans (Prc.trans
          (Pcc.trans (Pcs.trans Ppub))))))).trace
      · exact (Pdef.trans (Pbm.trans (Pbp.trans (Prc.trans
          (Pcc.trans (Pcs.trans Ppub)))))).mono
      · rw [hptrace]
        obtain ⟨δ, hδ⟩ := Pcs.trace
        rw [hδ]
        exact List.mem_append.mpr (Or.inl hccmem)
      · intro _
        rw [hpfull rfl, hag9w]
  | true =>
    simp only [SetupService, hrr, eq_self_iff_true, if_true,
      M.pure_bind] at h
    obtain ⟨p1, w1, hg, h⟩ := bind_ok_inv h
    obtain ⟨c1, n1⟩ := p1
    obtain ⟨n2, w2, hc, h⟩ := bind_ok_inv h
    obtain ⟨p2, w3, hres, h⟩ := bind_ok_inv h
    obtain ⟨c2, p3⟩ := p2
    obtain ⟨n3, p4⟩ := p3
    obtain ⟨rs, rn⟩ := p4
    have hres' := hres
    rw [setupResources_runner_eq job run (svc.resources.getD []) c1 n2 [] []
      w2] at hres'
    injection hres' with e1 e2
    injection e1 with e1
    injection e1 with ec en'
    injection en' with en ers
    injection ers with ers ern
    subst ec
    subst en
    subst ers
    subst ern
    subst e2
    obtain ⟨p5, w4, hdef, h⟩ := bind_ok_inv h
    obtain ⟨c3, n4⟩ := p5
    obtain ⟨_mounts, w5, hbm, h⟩ := bind_ok_inv h
    obtain ⟨_ports, w6, hbp, h⟩ := bind_ok_inv h
    obtain ⟨rn2, w7, hrc, h⟩ := bind_ok_inv h
    obtain ⟨cid, w8, hcc, h⟩ := bind_ok_inv h
    obtain ⟨_u1, w9, hcs, h⟩ := bind_ok_inv h
    obtain ⟨_u2, w10, hrun, h⟩ := bind_ok_inv h
    have Pdef : PhaseOut (creatableNetworkNames job svc) w2 w4 := by
      refine PhaseOut.widen ?_
        ((phase_setupDefaultNet job run c1 n2 w2 _ w4 hdef).1)
      intro x hx
      rw [List.mem_singleton.mp hx]
      unfold creatableNetworkNames
      exact List.mem_append.mpr (Or.inr (List.mem_append.mpr (Or.inr (by simp))))
    have Pbm : PhaseOut (creatableNetworkNames job svc) w4 w5 :=
      PhaseOut.widen (by intro x hx; cases hx)
        ((phase_buildMounts job name (svc.volumes.getD []) w4 _ w5 hbm).1)
    have Pbp : PhaseOut (creatableNetworkNames job svc) w5 w6 :=
      PhaseOut.widen (by intro x hx; cases hx)
        ((phase_buildPorts o name (svc.bindings.getD []) [] [] w5 _ w6 hbp).1)
    have Prc : PhaseOut (creatableNetworkNames job svc) w6 w7 :=
      PhaseOut.widen (by intro x hx; cases hx)
        ((phase_removeExistingContainer (DockerServiceName job name) [] w6 _ w7
          hrc).1)
    have Pcc : PhaseOut (creatableNetworkNames job svc) w7 w8 :=
      (phase_containerCreateE (creatableNetworkNames job svc)
        (DockerServiceName job name) (buildLabels job run name rn2) n4 w7 _ w8
        hcc).1
    have Pcs : PhaseOut (creatableNetworkNames job svc) w8 w9 :=
      (phase_containerStartE (creatableNetworkNames job svc) cid w8 _ w9 hcs).1
    have Prun : PhaseOut (creatableNetworkNames job svc) w9 w10 :=
      PhaseOut.widen (by intro x hx; cases hx)
        ((phase_runnerPhase o (DockerServiceName job name) cid w9 _ w10
          hrun).1)
    have hccmem : EngineCall.containerCreate (DockerServiceName job name) n4 ∈
        w8.trace := by
      simp only [containerCreateE] at hcc
      injection hcc with e1 e2
      rw [← e2]
      simp
    have hag1 : w1.agent = w.agent :=
      (phase_setupGroups job run (svc.networkGroups.getD []) created [] w
        _ w1 hg).2
    have hag2 : w2.agent = w1.agent :=
      (phase_setupConns (svc.connections.getD []) n1 w1 _ w2 hc).2
    have hag4 : w4.agent = w2.agent :=
      (phase_setupDefaultNet job run c1 n2 w2 _ w4 hdef).2
    have hag5 : w5.agent = w4.agent :=
      (phase_buildMounts job name (svc.volumes.getD []) w4 _ w5 hbm).2
    have hag6 : w6.agent = w5.agent :=
      (phase_buildPorts o name (svc.bindings.getD []) [] [] w5 _ w6 hbp).2
    have hag7 : w7.agent = w6.agent :=
      (phase_removeExistingContainer (DockerServiceName job name) [] w6 _ w7
        hrc).2
    have hag8 : w8.agent = w7.agent :=
      (phase_containerCreateE ([] : List String) (DockerServiceName job name)
        (buildLabels job run name rn2) n4 w7 _ w8 hcc).2
    have hag9 : w9.agent = w8.agent :=
      (phase_containerStartE ([] : List String) cid w8 _ w9 hcs).2
    have hag10 : w10.agent = w9.agent :=
      (phase_runnerPhase o (DockerServiceName job name) cid w9 _ w10 hrun).2
    have hag10w : w10.agent = w.agent := by
      rw [hag10, hag9, hag8, hag7, hag6, hag5, hag4, hag2, hag1]
    cases hcm : o.hasComm with
    | false =>
      rw [hcm] at h
      rw [if_neg Bool.false_ne_true] at h
      have hfin : cfin = c3 ∧ w' = w10 := by
        injection h with e1 e2
        injection e1 with e1
        exact ⟨e1.symm, e2.symm⟩
      obtain ⟨hcf, hwf⟩ := hfin
      subst hwf
      refine ⟨c1, n1, w1, n2, w2, c1, n2,
        (svc.resources.getD []).map (resourceRecordOf job true), [], w2,
        c3, n4, w4, hg, hc, ?_, hdef, ?_, ?_, ?_, ?_⟩
      · simpa using setupResources_runner_eq job run (svc.resources.getD [])
          c1 n2 [] [] w2
      · exact (Pdef.trans (Pbm.trans (Pbp.trans (Prc.trans
          (Pcc.trans (Pcs.trans Prun)))))).trace
      · exact (Pdef.trans (Pbm.trans (Pbp.trans (Prc.trans
          (Pcc.trans (Pcs.trans Prun)))))).mono
      · obtain ⟨δ, hδ⟩ := (Pcs.trans Prun).trace
        rw [hδ]
        exact List.mem_append.mpr (Or.inl hccmem)
      · intro hcomm
        exact absurd hcomm (by simp)
    | true =>
      rw [hcm] at h
      rw [if_pos rfl] at h
      obtain ⟨_u3, w11, hpub, h⟩ := bind_ok_inv h
      have hfin : cfin = c3 ∧ w' = w11 := by
        injection h with e1 e2
        injection e1 with e1
        exact ⟨e1.symm, e2.symm⟩
      obtain ⟨hcf, hwf⟩ := hfin
      subst hwf
      obtain ⟨hpsched, hptrace, hpeng, -, hpfull⟩ :=
        publishResources_frame o ((svc.resources.getD []).map
          (resourceRecordOf job true)) w10 _ w' hpub
      have Ppub : PhaseOut (creatableNetworkNames job svc) w10 w' :=
        phaseW_publishResources (creatableNetworkNames job svc) o _ w10 _ w'
          hpub
      refine ⟨c1, n1, w1, n2, w2, c1, n2,
        (svc.resources.getD []).map (resourceRecordOf job true), [], w2,
        c3, n4, w4, hg, hc, ?_, hdef, ?_, ?_, ?_, ?_⟩
      · simpa using setupResources_runner_eq job run (svc.resources.getD [])
          c1 n2 [] [] w2
      · exact (Pdef.trans (Pbm.trans (Pbp.trans (Prc.trans
          (Pcc.trans (Pcs.trans (Prun.trans Ppub))))))).trace
      · exact (Pdef.trans (Pbm.trans (Pbp.trans (Prc.trans
          (Pcc.trans (Pcs.trans (Prun.trans Ppub))))))).mono
      · rw [hptrace]
        obtain ⟨δ, hδ⟩ := (Pcs.trans Prun).trace
        rw [hδ]
        exact List.mem_append.mpr (Or.inl hccmem)
      · intro _
        rw [hpfull rfl, hag10w]

/-! ## Claim C4: platform connection network names are used verbatim -/

/-- C4: for every connection of type "Platform" with parsed data `{network}`:
on success the network name is passed to the engine inspect exactly as
provided; every network this job creates bears one of its own derived names
(group, resource or job-default — never the raw platform name in its own
right); and `SetupService` fails when the parsed name is empty, or when the
name is absent from the engine and is not accidentally equal to one of the
job's own group-network names. -/
theorem C4_platform_network_verbatim (o : Oracle) (job run : String)
    (created : List String) (name : String) (svc : MetadataService)
    (conn : ResourceConnection) (pc : DockerPlatformConnection) (w : W)
    (hm : conn ∈ svc.connections.getD [])
    (hpd : GetPlatformData conn = some (ConnData.parsed pc)) :
    (∀ cfin w',
      SetupService o job run created name svc w = (Except.ok cfin, w') →
      EngineCall.networkInspect pc.network ∈ w'.trace) ∧
    (∀ r w', SetupService o job run created name svc w = (r, w') →
      ∀ m jb rn, EngineCall.networkCreate m jb rn ∈ w'.trace →
        EngineCall.networkCreate m jb rn ∈ w.trace ∨
          m ∈ creatableNetworkNames job svc) ∧
    (pc.network = "" →
      ∃ e w', SetupService o job run created name svc w =
        (Except.error e, w')) ∧
    (pc.network ∉ w.eng.netNames →
      (∀ g ∈ svc.networkGroups.getD [], pc.network ≠ DockerNetworkName job g) →
      ∃ e w', SetupService o job run created name svc w =
        (Except.error e, w')) := by
  refine ⟨?_, ?_, ?_, ?_⟩
  · intro cfin w' hrun
    obtain ⟨c1, n1, w1, n2, w2, c2, n3, rs, rn, w3, c3, n4, w4,
      hg, hc, hres, hdef, ⟨δ, hδ⟩, hmono, hcc, hag⟩ :=
      SetupService_ok_decomp o job run created name svc w cfin w' hrun
    rw [hδ]
    exact List.mem_append.mpr (Or.inl
      (setupConns_inspects (svc.connections.getD []) conn pc hm hpd
        n1 w1 n2 w2 hc))
  · intro r w' hrun m jb rn hmem
    exact (phaseW_SetupService o job run created name svc w r w' hrun).creates
      m jb rn hmem
  · intro hemp
    refine SetupService_err_of_conns o job run created name svc w ?_
    intro n1 w1 _
    exact setupConns_err_of_bad (svc.connections.getD []) conn pc hm hpd
      n1 w1 (Or.inl hemp)
  · intro habs hng
    refine SetupService_err_of_conns o job run created name svc w ?_
    intro n1 w1 haddsIn
    refine setupConns_err_of_bad (svc.connections.getD []) conn pc hm hpd
      n1 w1 (Or.inr ?_)
    intro hmem1
    rcases haddsIn pc.network hmem1 with h1 | h1
    · exact habs h1
    · obtain ⟨g, hgmem, hgeq⟩ := List.mem_map.mp h1
      exact hng g hgmem hgeq.symm

/-- A computation that leaves the agent trace unchanged on every run. -/
def AgentsEq {α : Type} (f : M α) : Prop :=
  ∀ w r w', f w = (r, w') → w'.agent = w.agent

/-- A computation whose runs append at most a prefix of the
`createResource` calls for `rs` to the agent trace. -/
def AgentTake {α : Type} (rs : List CreateResource) (f : M α) : Prop :=
  ∀ w r w', f w = (r, w') →
    ∃ k, w'.agent = w.agent ++ ((rs.take k).map AgentCall.createResource)

theorem agentsEq_of_phase {S : List String} {α : Type} {f : M α}
    (h : Phase S f) : AgentsEq f :=
  fun w r w' hh => (h w r w' hh).2

theorem AgentTake.of_agentsEq {α : Type} (rs : List CreateResource)
    {f : M α} (h : AgentsEq f) : AgentTake rs f :=
  fun w r w' hh => ⟨0, by simp [h w r w' hh]⟩

theorem AgentTake.bindLeft {rs : List CreateResource} {α β : Type} {x : M α}
    {f : α → M β} (hx : AgentsEq x) (hf : ∀ a, AgentTake rs (f a)) :
    AgentTake rs (x >>= f) := by
  intro w r w' h
  simp only [M.run_bind] at h
  cases hx1 : x w with
  | mk rx wx =>
    rw [hx1] at h
    cases rx with
    | error e =>
      cases h
      exact ⟨0, by simp [hx w _ _ hx1]⟩
    | ok a =>
      obtain ⟨k, hk⟩ := hf a wx r w' h
      exact ⟨k, by rw [hk, hx w _ _ hx1]⟩

theorem AgentTake.bindRight {rs : List CreateResource} {α β : Type}
    {x : M α} {f : α → M β} (hx : AgentTake rs x)
    (hf : ∀ a, AgentsEq (f a)) : AgentTake rs (x >>= f) := by
  intro w r w' h
  simp only [M.run_bind] at h
  cases hx1 : x w with
  | mk rx wx =>
    rw [hx1] at h
    cases rx with
    | error e =>
      cases h
      exact hx w _ _ hx1
    | ok a =>
      obtain ⟨k, hk⟩ := hx w _ _ hx1
      exact ⟨k, by rw [hf a wx r w' h, hk]⟩

theorem agentTake_publish (o : Oracle) (rs : List CreateResource) :
    AgentTake rs (publishResources o rs) :=
  fun w r w' h => (publishResources_frame o rs w r w' h).2.2.2.1

/-- For a runner service, every agent call any `SetupService` run makes is a
`createResource` for one of the service's own records — all of which carry
`platform_connection = nil`. -/
theorem SetupService_agent_runner (o : Oracle) (job run : String)
    (created : List String) (name : String) (svc : MetadataService)
    (hrr : IsRunnerRole svc = true) :
    AgentTake ((svc.resources.getD []).map (resourceRecordOf job true))
      (SetupService o job run created name svc) := by
  unfold SetupService
  simp only [hrr, eq_self_iff_true, if_true]
  refine AgentTake.bindLeft
    (agentsEq_of_phase (phase_setupGroups job run _ created [])) ?_
  intro p1
  obtain ⟨c1, n1⟩ := p1
  refine AgentTake.bindLeft (agentsEq_of_phase (phase_setupConns _ n1)) ?_
  intro n2
  rw [show setupResources job run true (svc.resources.getD []) c1 n2 [] [] =
      (pure (c1, n2,
        ([] : List CreateResource) ++
          (svc.resources.getD []).map (resourceRecordOf job true),
        ([] : List String)) : M _) from
    funext (fun w =>
      setupResources_runner_eq job run (svc.resources.getD []) c1 n2 [] [] w),
    M.pure_bind]
  refine AgentTake.bindLeft
    (agentsEq_of_phase (phase_setupDefaultNet job run c1 n2)) ?_
  intro p3
  obtain ⟨c3, n4⟩ := p3
  refine AgentTake.bindLeft (agentsEq_of_phase (phase_buildMounts job name _)) ?_
  intro _mounts
  refine AgentTake.bindLeft
    (agentsEq_of_phase (phase_buildPorts o name _ [] [])) ?_
  intro _ports
  refine AgentTake.bindLeft
    (agentsEq_of_phase (phase_removeExistingContainer _ _)) ?_
  intro rn2
  refine AgentTake.bindLeft
    (agentsEq_of_phase (phase_containerCreateE [] _ _ _)) ?_
  intro cid
  refine AgentTake.bindLeft (agentsEq_of_phase (phase_containerStartE [] _)) ?_
  intro _
  refine AgentTake.bindLeft (agentsEq_of_phase (phase_runnerPhase o _ _)) ?_
  intro _
  cases hcm : o.hasComm
  · rw [if_neg (by simp)]
    exact AgentTake.bindLeft (agentsEq_of_phase (phase_pure ([] : List String) _))
      (fun _ => AgentTake.of_agentsEq _
        (agentsEq_of_phase (phase_pure ([] : List String) _)))
  · rw [if_pos rfl]
    exact AgentTake.bindRight (agentTake_publish o _)
      (fun _ => agentsEq_of_phase (phase_pure ([] : List String) _))

/-! ## Claim C5: per-resource networks and CreateResource payloads -/

/-- C5: for a non-runner service, every declared resource gets its
`{job}-{name}-resource` network created, the service's container is attached
to it, and a `CreateResource` with `platform_connection = {network: that
name}` is published; for a runner, every published record carries
`platform_connection = nil` and every created network is a group or default
network, never a per-resource one. -/
theorem C5_resource_networks_and_payloads (o : Oracle) (job run : String)
    (created : List String) (name : String) (svc : MetadataService) (w : W)
    (hcomm : o.hasComm = true) (hag : w.agent = [])
    (hcreated : ∀ n ∈ created, n ∈ w.eng.netNames) :
    (IsRunnerRole svc = false →
      ∀ cfin w',
        SetupService o job run created name svc w = (Except.ok cfin, w') →
        ∀ spec ∈ svc.resources.getD [],
          DockerNetworkResourceName job spec.name ∈ w'.eng.netNames ∧
          (∃ eps,
            EngineCall.containerCreate (DockerServiceName job name) eps ∈
              w'.trace ∧
            DockerNetworkResourceName job spec.name ∈ eps) ∧
          AgentCall.createResource ⟨spec.resourceType, spec.name,
            some ⟨DockerNetworkResourceName job spec.name⟩,
            spec.publicConnection, spec.metadata⟩ ∈ w'.agent) ∧
    (IsRunnerRole svc = true →
      ∀ r w', SetupService o job run created name svc w = (r, w') →
        (∀ rec, AgentCall.createResource rec ∈ w'.agent →
          rec.platformConnection = none) ∧
        (∀ m jb rn, EngineCall.networkCreate m jb rn ∈ w'.trace →
          EngineCall.networkCreate m jb rn ∈ w.trace ∨
          m ∈ (svc.networkGroups.getD []).map (DockerNetworkName job) ++
            [job])) := by
  constructor
  · intro hrr cfin w' hrun spec hspec
    obtain ⟨c1, n1, w1, n2, w2, c2, n3, rs, rn, w3, c3, n4, w4,
      hg, hc, hres, hdef, htr, hmono3, hccmem, hagent⟩ :=
      SetupService_ok_decomp o job run created name svc w cfin w' hrun
    rw [hrr] at hres
    have hs1 := setupGroups_sound job run (svc.networkGroups.getD [])
      created [] w c1 n1 w1 hg hcreated
    have hmono12 :=
      ((phase_setupConns (svc.connections.getD []) n1 w1 _ w2 hc).1).mono
    have hs2 : ∀ n ∈ c1, n ∈ w2.eng.netNames :=
      fun n hn => hmono12 n (hs1 n hn)
    obtain ⟨hrs, hnets, hall⟩ :=
      setupResources_service_spec job run (svc.resources.getD []) c1 n2 [] []
        w2 c2 n3 rs rn w3 hres hs2
    obtain ⟨hin3eng, hin3⟩ := hall spec hspec
    have hne : n3 ≠ [] := List.ne_nil_of_mem hin3
    have hn4 : n4 = n3 := by
      unfold setupDefaultNet at hdef
      rw [if_neg (by
        simp only [Nat.lt_one_iff, List.length_eq_zero]
        exact hne)] at hdef
      injection hdef with e1 e2
      injection e1 with e1
      injection e1 with e1a e1b
      exact e1b.symm
    refine ⟨hmono3 _ hin3eng, ⟨n4, hccmem, hn4 ▸ hin3⟩, ?_⟩
    have hmem : resourceRecordOf job false spec ∈ rs := by
      rw [hrs]
      exact List.mem_append.mpr
        (Or.inr (List.mem_map_of_mem (resourceRecordOf job false) hspec))
    have hmem2 :
        AgentCall.createResource (resourceRecordOf job false spec) ∈
          w'.agent := by
      rw [hagent hcomm, hag]
      exact List.mem_append.mpr
        (Or.inr (List.mem_map_of_mem AgentCall.createResource hmem))
    exact hmem2
  · intro hrr r w' hrun
    constructor
    · obtain ⟨k, hk⟩ := SetupService_agent_runner o job run created name svc
        hrr w r w' hrun
      intro rec hrec
      rw [hk, hag] at hrec
      simp only [List.nil_append] at hrec
      obtain ⟨x, hx, hxeq⟩ := List.mem_map.mp hrec
      injection hxeq with hxeq
      subst hxeq
      obtain ⟨sp, hsp, hspeq⟩ :=
        List.mem_map.mp (List.mem_of_mem_take hx)
      rw [← hspeq]
      simp [resourceRecordOf]
    · intro m jb rn hmem
      rcases (phaseW_SetupService o job run created name svc w r w'
          hrun).creates m jb rn hmem with h1 | h1
      · exact Or.inl h1
      · refine Or.inr ?_
        simp only [creatableNetworkNames, hrr, eq_self_iff_true, if_true,
          List.nil_append] at h1
        exact h1

/-- C5 fixture: a plain service with one declared resource `main`. -/
def svcC5 : MetadataService :=
  { emptyService with
      image := "pgapp",
      resources := some [⟨"pg", "main", none, "meta"⟩] }

/-- C5 fixture: the final world of the fixture run (computed). -/
def wC5fin : W :=
  ⟨⟨[], [⟨"J-main-resource", "J"⟩],
    [⟨"J-db", ⟨"J", "R", "db", some (some ["main"])⟩⟩]⟩,
   [EngineCall.networkInspect "J-main-resource",
    EngineCall.networkCreate "J-main-resource" "J" "R",
    EngineCall.containerInspect "J-db",
    EngineCall.containerCreate "J-db" ["J-main-resource"],
    EngineCall.containerStart "J-db"],
   [AgentCall.createResource
      ⟨"pg", "main", some ⟨"J-main-resource"⟩, none, "meta"⟩],
   []⟩

set_option maxHeartbeats 1600000 in
/-- C5 witness: on the concrete fixture the resource network exists
afterwards and the published record carries it as platform connection. -/
theorem C5_witness :
    DockerNetworkResourceName "J" "main" ∈ wC5fin.eng.netNames ∧
    AgentCall.createResource ⟨"pg", "main",
      some ⟨DockerNetworkResourceName "J" "main"⟩, none, "meta"⟩ ∈
      wC5fin.agent := by
  have h := (C5_resource_networks_and_payloads oTriv "J" "R" [] "db" svcC5 w0
    rfl rfl (by simp)).1 (by decide) ["J-main-resource"] wC5fin (by decide)
    ⟨"pg", "main", none, "meta"⟩ (by decide)
  exact ⟨h.1, h.2.2⟩

/-- C4 fixture: a service with one platform connection naming `ext-net`. -/
def svcC4 : MetadataService :=
  { emptyService with
      image := "nginx",
      connections := some [⟨"Platform", ConnData.parsed ⟨"ext-net"⟩⟩] }

/-- C4 fixture: the engine already has `ext-net`, created by another job. -/
def wC4 : W := ⟨⟨[], [⟨"ext-net", "otherjob"⟩], []⟩, [], [], []⟩

/-- C4 fixture: the final world of the fixture run (computed). -/
def wC4fin : W :=
  ⟨⟨[], [⟨"ext-net", "otherjob"⟩], [⟨"J-web", ⟨"J", "R", "web", none⟩⟩]⟩,
   [EngineCall.networkInspect "ext-net", EngineCall.containerInspect "J-web",
    EngineCall.containerCreate "J-web" ["ext-net"],
    EngineCall.containerStart "J-web"],
   [], []⟩

set_option maxHeartbeats 1600000 in
/-- C4 witness: on the concrete fixture the hypotheses hold and the run
inspects `ext-net` verbatim. -/
theorem C4_witness :
    EngineCall.networkInspect "ext-net" ∈ wC4fin.trace :=
  (C4_platform_network_verbatim oTriv "J" "R" [] "web" svcC4
    ⟨"Platform", ConnData.parsed ⟨"ext-net"⟩⟩ ⟨"ext-net"⟩ wC4
    (by decide) (by decide)).1 [] wC4fin (by decide)

/-! ## Claim C7: duplicate / empty declared volume names -/

/-- C7 counterexample configuration: a setup manifest with an empty (but
non-nil) services map and a duplicated volume name. -/
def cfgC7 : Configuration :=
  ⟨"j", "r", "x", "docker", "setup",
   some ⟨some [], none, some ["v", "v"], none, none⟩⟩

/-- C7 counterexample: `CheckMetadata` runs the volume checks only when the
manifest declares at least one service, so with `services = {}` the
duplicated `volumes = ["v", "v"]` slips through: the run succeeds and the
volume is provisioned, where the claim predicts a validation error first. -/
theorem C7_counterexample :
    (Run oTriv 1 cfgC7 w0).1 = Except.ok () ∧
    EngineCall.volumeCreate "dc-j-v" "j" "r" ∈ (Run oTriv 1 cfgC7 w0).2.trace := by
  decide

/-- The volume-set loop fails whenever the remaining names contain an
empty-after-trim name, a duplicate, or a name already in the set. -/
theorem declaredVolumeLoop_err (vols : List String) :
    ∀ set : List String,
      ((∃ v ∈ vols, goTrimSpace v = "") ∨
        ¬ (vols.map goTrimSpace).Nodup ∨
        ∃ v ∈ vols, set.contains (goTrimSpace v) = true) →
      ∃ e, declaredVolumeLoop vols set = Except.error e := by
  induction vols with
  | nil =>
    intro set hbad
    rcases hbad with ⟨v, hv, -⟩ | hbad | ⟨v, hv, -⟩
    · cases hv
    · exact absurd List.nodup_nil hbad
    · cases hv
  | cons v rest ih =>
    intro set hbad
    simp only [declaredVolumeLoop]
    by_cases hn : goTrimSpace v = ""
    · rw [if_pos hn]
      exact ⟨_, rfl⟩
    · rw [if_neg hn]
      by_cases hc : set.contains (goTrimSpace v) = true
      · rw [if_pos hc]
        exact ⟨_, rfl⟩
      · rw [if_neg hc]
        refine ih (set ++ [goTrimSpace v]) ?_
        rcases hbad with ⟨x, hx, hxe⟩ | hbad | ⟨x, hx, hxc⟩
        · rcases List.mem_cons.mp hx with hx1 | hx1
          · exact absurd (hx1 ▸ hxe) hn
          · exact Or.inl ⟨x, hx1, hxe⟩
        · rw [List.map_cons, List.nodup_cons] at hbad
          rcases not_and_or.mp hbad with hbad | hbad
          · rw [not_not] at hbad
            obtain ⟨x, hx, hxe⟩ := List.mem_map.mp hbad
            refine Or.inr (Or.inr ⟨x, hx, ?_⟩)
            rw [hxe]
            exact List.elem_eq_true_of_mem (List.mem_append.mpr
              (Or.inr (by simp)))
          · exact Or.inr (Or.inl hbad)
        · rcases List.mem_cons.mp hx with hx1 | hx1
          · exact absurd (hx1 ▸ hxc) hc
          · refine Or.inr (Or.inr ⟨x, hx1, ?_⟩)
            exact List.elem_eq_true_of_mem (List.mem_append.mpr
              (Or.inl (List.mem_of_elem_eq_true hxc)))

/-- `CheckMetadata` fails (without touching the world) whenever the manifest
declares at least one service and its volume list has an empty or duplicate
name. -/
theorem CheckMetadata_err_of_badVolumes (job : String) (md : Metadata)
    (svcs : List (String × MetadataService)) (hsv : md.services = some svcs)
    (hne : svcs ≠ []) (vols : List String) (hvol : md.volumes = some vols)
    (hbad : (∃ v ∈ vols, goTrimSpace v = "") ∨
      ¬ (vols.map goTrimSpace).Nodup) :
    ∀ w, ∃ e, CheckMetadata job (some md) w = (Except.error e, w) := by
  intro w
  have hbad' : (∃ v ∈ vols, goTrimSpace v = "") ∨
      ¬ (vols.map goTrimSpace).Nodup ∨
      ∃ v ∈ vols, ([] : List String).contains (goTrimSpace v) = true := by
    rcases hbad with h | h
    · exact Or.inl h
    · exact Or.inr (Or.inl h)
  obtain ⟨ev, hev⟩ := declaredVolumeLoop_err vols [] hbad'
  simp only [CheckMetadata, hsv]
  rw [if_neg (by simp [List.isEmpty_iff]; exact hne)]
  cases hdep : CheckDependsOnServicesExist svcs with
  | error e =>
    exact ⟨e, by simp [M.run_bind, hdep, M.ofExcept]⟩
  | ok u =>
    cases hcyc : CheckCircularDependencies svcs with
    | error e =>
      exact ⟨e, by simp [M.run_bind, hdep, hcyc, M.ofExcept]⟩
    | ok u2 =>
      refine ⟨ev, ?_⟩
      simp only [M.run_bind, hdep, hcyc, M.ofExcept, CheckVolumes, hvol,
        DeclaredVolumeSet, hev]

/-- C7 (amended): when the manifest declares at least one service, a setup
run on a volume list with an empty or duplicate name fails and leaves the
world untouched (the error may also come from the earlier pure dependency or
cycle checks, which touch nothing either). -/
theorem C7_volume_validation_guarded (o : Oracle) (fuel : Nat)
    (cfg : Configuration) (w : W) (md : Metadata)
    (svcs : List (String × MetadataService)) (vols : List String)
    (ha : cfg.action ≠ "teardown") (hmd : cfg.metadata = some md)
    (hsv : md.services = some svcs) (hne : svcs ≠ [])
    (hvol : md.volumes = some vols)
    (hbad : (∃ v ∈ vols, goTrimSpace v = "") ∨
      ¬ (vols.map goTrimSpace).Nodup) :
    ∃ e, Run o fuel cfg w = (Except.error e, w) := by
  obtain ⟨e, hcm⟩ := CheckMetadata_err_of_badVolumes cfg.job md svcs hsv hne
    vols hvol hbad w
  refine ⟨e, ?_⟩
  unfold Run
  rw [if_neg ha, hmd]
  simp only [M.run_bind, hcm]

/-- C7 witness for the amended theorem: one declared service plus the
duplicated volume list is rejected with the world unchanged. -/
theorem C7_witness :
    ∃ e, Run oTriv 1
      ⟨"j", "r", "x", "docker", "setup",
       some ⟨some [("a", emptyService)], none, some ["v", "v"], none, none⟩⟩
      w0 = (Except.error e, w0) :=
  C7_volume_validation_guarded oTriv 1
    ⟨"j", "r", "x", "docker", "setup",
     some ⟨some [("a", emptyService)], none, some ["v", "v"], none, none⟩⟩
    w0 ⟨some [("a", emptyService)], none, some ["v", "v"], none, none⟩
    [("a", emptyService)] ["v", "v"] (by decide) rfl rfl (by decide) rfl
    (Or.inr (by decide))

/-! ## Claim C3: cyclic dependency graphs are rejected before any mutation -/

/-- The dependency-graph edge relation of the manifest: `u` depends on `d`,
both being declared services (`CheckCircularDependencies` skips edges to
unknown services). -/
def EdgeTo (svcs : List (String × MetadataService)) (u d : String) : Prop :=
  (svcs.lookup u).isSome = true ∧ (svcs.lookup d).isSome = true ∧
    d ∈ depsOf ((svcs.lookup u).getD emptyService)

/-- The manifest's dependency graph contains a (directed) cycle: a nonempty
edge walk from `u` back to `u`. -/
def HasCycle (svcs : List (String × MetadataService)) : Prop :=
  ∃ (u : String) (ds : List String), ds ≠ [] ∧
    List.Chain (EdgeTo svcs) u ds ∧ ds.getLast? = some u

theorem colorOf_setColor_self (st : DfsState) (n : String) (c : Nat) :
    colorOf (setColor st n c) n = c := by
  simp [colorOf, setColor, List.lookup]

theorem colorOf_setColor_ne (st : DfsState) {n m : String} (c : Nat)
    (h : m ≠ n) : colorOf (setColor st n c) m = colorOf st m := by
  have hb : (m == n) = false := by simpa using h
  simp [colorOf, setColor, List.lookup, hb]

/-- `List.indexOf` looks in the left part first. -/
theorem indexOf_append_left {l1 l2 : List String} {a : String} (h : a ∈ l1) :
    (l1 ++ l2).indexOf a = l1.indexOf a := by
  induction l1 with
  | nil => cases h
  | cons x xs ih =>
    by_cases hx : a = x
    · subst hx
      simp [List.indexOf_cons_self]
    · rcases List.mem_cons.mp h with h1 | h1
      · exact absurd h1 hx
      · rw [List.cons_append, List.indexOf_cons_ne _ (Ne.symm hx),
          List.indexOf_cons_ne _ (Ne.symm hx), ih h1]

/-- `List.indexOf` of an element only in the right part. -/
theorem indexOf_append_right {l1 l2 : List String} {a : String}
    (h : a ∉ l1) : (l1 ++ l2).indexOf a = l1.length + l2.indexOf a := by
  induction l1 with
  | nil => simp
  | cons x xs ih =>
    have hx : a ≠ x := fun he => h (he ▸ List.mem_cons_self x xs)
    rw [List.cons_append, List.indexOf_cons_ne _ (Ne.symm hx)]
    rw [ih (fun hm => h (List.mem_cons_of_mem x hm))]
    simp [List.length_cons, Nat.succ_add]

/-- Every finished node's existing dependencies finished strictly earlier. -/
def GoodFinish (svcs : List (String × MetadataService)) (st : DfsState) :
    Prop :=
  ∀ u d, EdgeTo svcs u d → u ∈ st.finish →
    d ∈ st.finish ∧ st.finish.indexOf d < st.finish.indexOf u

/-- The DFS state invariant: finished = colored 2, dependencies finish first,
and the finish order is duplicate-free. -/
def Inv (svcs : List (String × MetadataService)) (st : DfsState) : Prop :=
  (∀ n, colorOf st n = 2 ↔ n ∈ st.finish) ∧ GoodFinish svcs st ∧
    st.finish.Nodup

/-- `Inv` only looks at colors and the finish list. -/
theorem Inv_congr (svcs : List (String × MetadataService))
    {st stp : DfsState} (hc : ∀ n, colorOf stp n = colorOf st n)
    (hf : stp.finish = st.finish) (h : Inv svcs st) : Inv svcs stp := by
  obtain ⟨h1, h2, h3⟩ := h
  refine ⟨?_, ?_, ?_⟩
  · intro n
    rw [hc n, hf]
    exact h1 n
  · intro u d he hu
    rw [hf] at hu ⊢
    exact h2 u d he hu
  · rw [hf]
    exact h3

/-- An errored accumulator never recovers in the dep fold. -/
theorem dfsFold_error (svcs : List (String × MetadataService))
    (vF : DfsState → String → Except Err DfsState) (node : String) :
    ∀ (ds : List String) (e : Err),
      ds.foldl (dfsDepStep svcs vF node) (Except.error e) =
        Except.error e := by
  intro ds
  induction ds with
  | nil => intro e; rfl
  | cons d rest ih =>
    intro e
    simp only [List.foldl_cons, dfsDepStep]
    exact ih e

/-- Every successful `dfsVisit` preserves the invariant, only appends to the
finish order, only upgrades colors to 2, keeps the gray set, and finishes its
node. -/
theorem dfsVisit_ok_spec (svcs : List (String × MetadataService)) :
    ∀ (fuel : Nat) (st : DfsState) (node : String) (st' : DfsState),
      dfsVisit svcs fuel st node = Except.ok st' → Inv svcs st →
      Inv svcs st' ∧ (∃ ext, st'.finish = st.finish ++ ext) ∧
      (∀ n, colorOf st n = 2 → colorOf st' n = 2) ∧
      (∀ n, colorOf st' n = 1 ↔ colorOf st n = 1) ∧
      colorOf st' node = 2 ∧
      (∀ n, colorOf st' n = colorOf st n ∨ colorOf st' n = 2) := by
  intro fuel
  induction fuel with
  | zero =>
    intro st node st' h hinv
    simp [dfsVisit] at h
  | succ fuel ih =>
    have hfold : ∀ (node : String) (ds : List String) (st st2 : DfsState),
        ds.foldl (dfsDepStep svcs (dfsVisit svcs fuel) node)
          (Except.ok st) = Except.ok st2 → Inv svcs st →
        Inv svcs st2 ∧ (∃ ext, st2.finish = st.finish ++ ext) ∧
        (∀ n, colorOf st n = 2 → colorOf st2 n = 2) ∧
        (∀ n, colorOf st2 n = 1 ↔ colorOf st n = 1) ∧
        (∀ d ∈ ds, (svcs.lookup d).isSome = true → colorOf st2 d = 2) ∧
        (∀ n, colorOf st2 n = colorOf st n ∨ colorOf st2 n = 2) := by
      intro node ds
      induction ds with
      | nil =>
        intro st st2 h hinv
        injection h with h
        subst h
        exact ⟨hinv, ⟨[], by simp⟩, fun n hn => hn, fun n => Iff.rfl, by simp,
          fun n => Or.inl rfl⟩
      | cons d rest ihd =>
        intro st st2 h hinv
        simp only [List.foldl_cons] at h
        by_cases hl : (svcs.lookup d).isSome = true
        · rw [show dfsDepStep svcs (dfsVisit svcs fuel) node (Except.ok st) d =
              dfsVisit svcs fuel
                (if (st.parent.lookup d).isSome then st
                 else { st with parent := (d, node) :: st.parent }) d from by
            simp [dfsDepStep, hl]] at h
          have hcoleq : ∀ n,
              colorOf (if (st.parent.lookup d).isSome then st
                else { st with parent := (d, node) :: st.parent }) n =
              colorOf st n := by
            intro n
            by_cases hp : (st.parent.lookup d).isSome = true
            · rw [if_pos hp]
            · rw [if_neg hp]
              rfl
          have hfineq :
              (if (st.parent.lookup d).isSome then st
                else { st with parent := (d, node) :: st.parent }).finish =
              st.finish := by
            by_cases hp : (st.parent.lookup d).isSome = true
            · rw [if_pos hp]
            · rw [if_neg hp]
          cases hv : dfsVisit svcs fuel
              (if (st.parent.lookup d).isSome then st
               else { st with parent := (d, node) :: st.parent }) d with
          | error e =>
            rw [hv, dfsFold_error] at h
            cases h
          | ok stx =>
            rw [hv] at h
            obtain ⟨hinvx, ⟨e1, he1⟩, hmono1, hgray1, hd2, hor1⟩ :=
              ih _ d stx hv (Inv_congr svcs hcoleq hfineq hinv)
            obtain ⟨hinv2, ⟨e2, he2⟩, hmono2, hgray2, hrest2, hor2⟩ :=
              ihd stx st2 h hinvx
            refine ⟨hinv2, ⟨e1 ++ e2, ?_⟩, ?_, ?_, ?_, ?_⟩
            · rw [he2, he1, hfineq, List.append_assoc]
            · intro n hn
              exact hmono2 n (hmono1 n (by rw [hcoleq n]; exact hn))
            · intro n
              rw [hgray2 n, hgray1 n, hcoleq n]
            · intro x hx hxl
              rcases List.mem_cons.mp hx with hx1 | hx1
              · subst hx1
                exact hmono2 x hd2
              · exact hrest2 x hx1 hxl
            · intro n
              rcases hor2 n with h2 | h2
              · rcases hor1 n with h1 | h1
                · exact Or.inl (by rw [h2, h1, hcoleq n])
                · exact Or.inr (by rw [h2, h1])
              · exact Or.inr h2
        · rw [show dfsDepStep svcs (dfsVisit svcs fuel) node (Except.ok st) d =
              Except.ok st from by simp [dfsDepStep, hl]] at h
          obtain ⟨hinv2, hext, hmono, hgray, hrest, hor⟩ := ihd st st2 h hinv
          refine ⟨hinv2, hext, hmono, hgray, ?_, hor⟩
          intro x hx hxl
          rcases List.mem_cons.mp hx with hx1 | hx1
          · exact absurd (hx1 ▸ hxl) hl
          · exact hrest x hx1 hxl
    intro st node st' h hinv
    simp only [dfsVisit] at h
    split at h
    · cases h
    · next hcol =>
      injection h with h
      subst h
      exact ⟨hinv, ⟨[], by simp⟩, fun n hn => hn, fun n => Iff.rfl, hcol,
        fun n => Or.inl rfl⟩
    · next c hne1 hne2 =>
      have hnotfin : node ∉ st.finish := fun hm => hne2 ((hinv.1 node).mpr hm)
      have hinv1 : Inv svcs (setColor st node 1) := by
        obtain ⟨h1, h2, h3⟩ := hinv
        refine ⟨?_, h2, h3⟩
        intro n
        by_cases hn : n = node
        · subst hn
          rw [colorOf_setColor_self]
          exact ⟨fun h12 => absurd h12 (by decide), fun hm => absurd hm hnotfin⟩
        · rw [colorOf_setColor_ne _ 1 hn]
          exact h1 n
      split at h
      · cases h
      · next st2 hfoldeq =>
        injection h with h
        subst h
        obtain ⟨hinv2, ⟨e2, he2⟩, hmono2, hgray2, hdeps2, hor2⟩ :=
          hfold node (depsOf ((svcs.lookup node).getD emptyService))
            (setColor st node 1) st2 hfoldeq hinv1
        have hst2node : colorOf st2 node = 1 :=
          (hgray2 node).mpr (colorOf_setColor_self st node 1)
        have hnode2fin : node ∉ st2.finish := fun hm => by
          have h2c := (hinv2.1 node).mpr hm
          rw [hst2node] at h2c
          exact absurd h2c (by decide)
        have hdepsfin : ∀ d, EdgeTo svcs node d → d ∈ st2.finish := by
          intro d hd
          obtain ⟨huk, hdk, hdm⟩ := hd
          exact (hinv2.1 d).mp (hdeps2 d hdm hdk)
        have hcolP : ∀ m, m ≠ node →
            colorOf { setColor st2 node 2 with
              finish := st2.finish ++ [node] } m = colorOf st2 m :=
          fun m hm => colorOf_setColor_ne st2 2 hm
        have hcolPn : colorOf { setColor st2 node 2 with
            finish := st2.finish ++ [node] } node = 2 :=
          colorOf_setColor_self st2 node 2
        refine ⟨⟨?_, ?_, ?_⟩, ⟨e2 ++ [node], ?_⟩, ?_, ?_, hcolPn, ?_⟩
        · intro n
          by_cases hn : n = node
          · subst hn
            refine ⟨fun _ => List.mem_append.mpr (Or.inr (by simp)),
              fun _ => hcolPn⟩
          · rw [hcolP n hn]
            constructor
            · intro hc2
              exact List.mem_append.mpr (Or.inl ((hinv2.1 n).mp hc2))
            · intro hm
              rcases List.mem_append.mp hm with hm1 | hm1
              · exact (hinv2.1 n).mpr hm1
              · exact absurd (List.mem_singleton.mp hm1) hn
        · intro u d hed hu
          rcases List.mem_append.mp hu with hu1 | hu1
          · obtain ⟨hdm, hidx⟩ := hinv2.2.1 u d hed hu1
            refine ⟨List.mem_append.mpr (Or.inl hdm), ?_⟩
            rw [indexOf_append_left hdm, indexOf_append_left hu1]
            exact hidx
          · rw [List.mem_singleton.mp hu1] at hed ⊢
            have hdm := hdepsfin d hed
            refine ⟨List.mem_append.mpr (Or.inl hdm), ?_⟩
            rw [indexOf_append_left hdm, indexOf_append_right hnode2fin]
            have hlt : st2.finish.indexOf d < st2.finish.length :=
              List.indexOf_lt_length.mpr hdm
            simpa using hlt
        · refine List.Nodup.append hinv2.2.2 (List.nodup_singleton node) ?_
          intro a ha hb
          rw [List.mem_singleton.mp hb] at ha
          exact hnode2fin ha
        · show st2.finish ++ [node] = st.finish ++ (e2 ++ [node])
          rw [he2]
          simp [setColor]
        · intro n hn
          by_cases hne : n = node
          · subst hne
            exact hcolPn
          · rw [hcolP n hne]
            refine hmono2 n ?_
            rw [colorOf_setColor_ne _ 1 hne]
            exact hn
        · intro n
          by_cases hne : n = node
          · subst hne
            rw [hcolPn]
            exact ⟨fun h12 => absurd h12 (by decide), fun h1 => absurd h1 hne1⟩
          · rw [hcolP n hne, hgray2 n, colorOf_setColor_ne _ 1 hne]
        · intro n
          by_cases hne : n = node
          · subst hne
            exact Or.inr hcolPn
          · rw [hcolP n hne]
            rcases hor2 n with h2 | h2
            · rw [h2, colorOf_setColor_ne _ 1 hne]
              exact Or.inl rfl
            · exact Or.inr h2

/-- No node is mid-visit. -/
def NoGray (st : DfsState) : Prop := ∀ n, colorOf st n ≠ 1

/-- A successful root loop finishes every listed unvisited key. -/
theorem dfsOuter_ok_spec (svcs : List (String × MetadataService)) :
    ∀ (ks : List String) (st stf : DfsState),
      dfsOuter svcs ks st = Except.ok stf → Inv svcs st → NoGray st →
      Inv svcs stf ∧ NoGray stf ∧
      (∀ k ∈ ks, colorOf st k = 0 ∨ colorOf st k = 1 → colorOf stf k = 2) ∧
      (∀ n, colorOf st n = 2 → colorOf stf n = 2) := by
  intro ks
  induction ks with
  | nil =>
    intro st stf h hinv hng
    injection h with h
    subst h
    exact ⟨hinv, hng, by simp, fun n hn => hn⟩
  | cons k rest ih =>
    intro st stf h hinv hng
    simp only [dfsOuter] at h
    by_cases hc : colorOf st k = 0
    · rw [if_pos hc] at h
      cases hv : dfsVisit svcs (svcs.length + 1) st k with
      | error e =>
        rw [hv] at h
        cases h
      | ok st1 =>
        rw [hv] at h
        obtain ⟨hinv1, hext1, hmono1, hgray1, hk2, hor1⟩ :=
          dfsVisit_ok_spec svcs (svcs.length + 1) st k st1 hv hinv
        have hng1 : NoGray st1 := fun n h1 => hng n ((hgray1 n).mp h1)
        obtain ⟨hinvf, hngf, hks, hmonof⟩ := ih st1 stf h hinv1 hng1
        refine ⟨hinvf, hngf, ?_, fun n hn => hmonof n (hmono1 n hn)⟩
        intro x hx hx01
        rcases List.mem_cons.mp hx with hx1 | hx1
        · subst hx1
          exact hmonof x hk2
        · rcases hor1 x with he | h2
          · exact hks x hx1 (he ▸ hx01)
          · exact hmonof x h2
    · rw [if_neg hc] at h
      obtain ⟨hinvf, hngf, hks, hmonof⟩ := ih st stf h hinv hng
      refine ⟨hinvf, hngf, ?_, hmonof⟩
      intro x hx hx01
      rcases List.mem_cons.mp hx with hx1 | hx1
      · subst hx1
        rcases hx01 with h0 | h1
        · exact absurd h0 hc
        · exact absurd h1 (hng x)
      · exact hks x hx1 hx01

/-- Walking a chain of edges strictly decreases the finish index. -/
theorem chain_idx_lt (svcs : List (String × MetadataService))
    (st : DfsState) (hGF : GoodFinish svcs st) :
    ∀ (ds : List String) (u : String), ds ≠ [] →
      List.Chain (EdgeTo svcs) u ds → u ∈ st.finish →
      ∃ v, ds.getLast? = some v ∧ v ∈ st.finish ∧
        st.finish.indexOf v < st.finish.indexOf u := by
  intro ds
  induction ds with
  | nil => intro u hne; exact absurd rfl hne
  | cons d rest ihd =>
    intro u hne hch hu
    rw [List.chain_cons] at hch
    obtain ⟨hed, hch2⟩ := hch
    obtain ⟨hdm, hidx⟩ := hGF u d hed hu
    cases rest with
    | nil => exact ⟨d, rfl, hdm, hidx⟩
    | cons r rs =>
      obtain ⟨v, hlast, hv, hvidx⟩ := ihd d (by simp) hch2 hdm
      exact ⟨v, by rw [List.getLast?_cons_cons]; exact hlast, hv,
        Nat.lt_trans hvidx hidx⟩

/-- A key of the services map. -/
theorem lookup_isSome_mem {svcs : List (String × MetadataService)}
    {k : String} (h : (svcs.lookup k).isSome = true) :
    k ∈ svcs.map Prod.fst := by
  induction svcs with
  | nil => simp [List.lookup] at h
  | cons p rest ih =>
    obtain ⟨a, b⟩ := p
    by_cases hk : k = a
    · subst hk
      simp
    · simp only [List.lookup, show (k == a) = false by simpa using hk] at h
      exact List.mem_cons_of_mem _ (ih h)

/-- On a cyclic dependency graph `CheckCircularDependencies` never returns
`ok`: with every declared key finished, a cycle would force an infinite
strict descent of finish indices. -/
theorem CheckCircularDependencies_err_of_cycle
    (svcs : List (String × MetadataService)) (hcy : HasCycle svcs) :
    ∃ e, CheckCircularDependencies svcs = Except.error e := by
  unfold CheckCircularDependencies
  cases ho : dfsOuter svcs (svcs.map Prod.fst) ⟨[], [], []⟩ with
  | error e => exact ⟨e, rfl⟩
  | ok stf =>
    exfalso
    have hinv0 : Inv svcs ⟨[], [], []⟩ := by
      refine ⟨?_, ?_, List.nodup_nil⟩
      · intro n
        simp [colorOf, List.lookup]
      · intro u d hed hu
        cases hu
    have hng0 : NoGray ⟨[], [], []⟩ := by
      intro n
      simp [colorOf, NoGray, List.lookup]
    obtain ⟨hinvf, hngf, hks, hmonof⟩ :=
      dfsOuter_ok_spec svcs (svcs.map Prod.fst) ⟨[], [], []⟩ stf ho hinv0 hng0
    obtain ⟨u, ds, hne, hch, hlast⟩ := hcy
    have huk : (svcs.lookup u).isSome = true := by
      cases ds with
      | nil => exact absurd rfl hne
      | cons d rest =>
        rw [List.chain_cons] at hch
        exact hch.1.1
    have hu2 : colorOf stf u = 2 :=
      hks u (lookup_isSome_mem huk) (Or.inl (by simp [colorOf, List.lookup]))
    have hufin : u ∈ stf.finish := (hinvf.1 u).mp hu2
    obtain ⟨v, hvlast, hvfin, hvidx⟩ :=
      chain_idx_lt svcs stf hinvf.2.1 ds u hne hch hufin
    rw [hlast] at hvlast
    injection hvlast with hvu
    rw [hvu] at hvidx
    exact Nat.lt_irrefl _ hvidx

/-- On a cyclic manifest `CheckMetadata` fails and leaves the world
unchanged (all its checks up to the cycle check are pure). -/
theorem CheckMetadata_err_of_cycle (job : String) (md : Metadata)
    (svcs : List (String × MetadataService)) (hsv : md.services = some svcs)
    (hcy : HasCycle svcs) :
    ∀ w, ∃ e, CheckMetadata job (some md) w = (Except.error e, w) := by
  intro w
  have hne : svcs ≠ [] := by
    obtain ⟨u, ds, hne, hch, -⟩ := hcy
    cases ds with
    | nil => exact absurd rfl hne
    | cons d rest =>
      rw [List.chain_cons] at hch
      have huk := hch.1.1
      intro hnil
      rw [hnil] at huk
      simp [List.lookup] at huk
  simp only [CheckMetadata, hsv]
  rw [if_neg (by simp only [List.isEmpty_iff]; exact hne)]
  cases hdep : CheckDependsOnServicesExist svcs with
  | error e => exact ⟨e, by simp [M.run_bind, hdep, M.ofExcept]⟩
  | ok u =>
    obtain ⟨e, hcyc⟩ := CheckCircularDependencies_err_of_cycle svcs hcy
    exact ⟨e, by simp [M.run_bind, hdep, hcyc, M.ofExcept]⟩

/-- C3: a setup run on a manifest whose dependency graph has a cycle returns
an error with the world — engine state included — exactly as it was: no
volume, network or container call happens before the rejection. -/
theorem C3_cycle_rejected_without_mutation (o : Oracle) (fuel : Nat)
    (cfg : Configuration) (w : W) (md : Metadata)
    (svcs : List (String × MetadataService))
    (ha : cfg.action ≠ "teardown") (hmd : cfg.metadata = some md)
    (hsv : md.services = some svcs) (hcy : HasCycle svcs) :
    ∃ e, Run o fuel cfg w = (Except.error e, w) := by
  obtain ⟨e, hcm⟩ := CheckMetadata_err_of_cycle cfg.job md svcs hsv hcy w
  refine ⟨e, ?_⟩
  unfold Run
  rw [if_neg ha, hmd]
  simp only [M.run_bind, hcm]

/-- C3 witness: the two-service cycle `a → b → a` is rejected with the world
untouched. -/
theorem C3_witness :
    ∃ e, Run oTriv 1
      ⟨"j", "r", "x", "docker", "setup", some mdCyclic⟩ w0 =
      (Except.error e, w0) :=
  C3_cycle_rejected_without_mutation oTriv 1
    ⟨"j", "r", "x", "docker", "setup", some mdCyclic⟩ w0 mdCyclic
    [("a", svcCycA), ("b", svcCycB)] (by decide) rfl rfl
    ⟨"a", ["b", "a"], by decide,
      List.Chain.cons ⟨by decide, by decide, by decide⟩
        (List.Chain.cons ⟨by decide, by decide, by decide⟩ List.Chain.nil),
      by decide⟩

end DeployCommander
